import Mathlib

/-!
Shallow embedding of the mysqlite storage core (src/main.rs).

Bytes are modelled as `Nat` (values < 256 where it matters), byte buffers as
`List Nat`.  The backing file is a byte list together with the current file
cursor, because the Rust code reads with `read_exact` at the *current* cursor
position (it never seeks before reading) while `flush_page` seeks absolutely.
Fallible operations return an `Except` outcome *paired with* the post state,
mirroring Rust's in-place mutation that persists even when an error is
returned.  A Rust panic (out-of-bounds `Vec` indexing, out-of-range slice)
is modelled as the error value `Err.outOfBounds`; a `read_exact` hitting end
of file is `Err.unexpectedEof`.  `sync_all` has no observable effect on the
byte-level state and is recorded only in the event log of `Table.close`.
-/

/-- Size in bytes of the little-endian encoded row id (Row::ID_SIZE). -/
def idSize : Nat := 4

/-- Fixed byte width of the username field (Row::USERNAME_SIZE). -/
def usernameSize : Nat := 32

/-- Fixed byte width of the email field (Row::EMAIL_SIZE). -/
def emailSize : Nat := 255

/-- Encoded size of one row (Row::SIZE = 4 + 32 + 255 = 291). -/
def rowSize : Nat := idSize + usernameSize + emailSize

/-- Size of one page in bytes (Pager::SIZE). -/
def pageSize : Nat := 4096

/-- Rows per page (Table::ROWS_PER_PAGE = 4096 / 291 = 14). -/
def rowsPerPage : Nat := pageSize / rowSize

theorem rowSize_eq : rowSize = 291 := rfl

theorem pageSize_eq : pageSize = 4096 := rfl

theorem rowsPerPage_eq : rowsPerPage = 14 := rfl

/-- One fixed-schema record (struct Row). -/
structure Row where
  id : Nat
  username : List Nat
  email : List Nat
deriving DecidableEq

/-- Default row used with `List.getD`. -/
def defaultRow : Row := ⟨0, [], []⟩

/-- Little-endian 4-byte encoding of the id (u32::to_le_bytes). -/
def toLe4 (n : Nat) : List Nat :=
  [n % 256, n / 256 % 256, n / 65536 % 256, n / 16777216 % 256]

/-- Decoding of 4 little-endian bytes (u32::from_le_bytes). -/
def fromLe4 (l : List Nat) : Nat :=
  l.getD 0 0 + 256 * l.getD 1 0 + 65536 * l.getD 2 0 + 16777216 * l.getD 3 0

/-- The 291 encoded bytes of a row: id, username buffer, email buffer. -/
def serializeRow (r : Row) : List Nat := toLe4 r.id ++ r.username ++ r.email

/-- Read `len` bytes of a buffer starting at `off` (a slice `[off, off+len)`). -/
def readRange (l : List Nat) (off len : Nat) : List Nat := (l.drop off).take len

/-- Overwrite the bytes of `l` at `[off, off + bs.length)` with `bs`
(copy_from_slice into a fixed-size buffer). -/
def writeBytes (l : List Nat) (off : Nat) (bs : List Nat) : List Nat :=
  l.take off ++ bs ++ l.drop (off + bs.length)

/-- File write after an absolute seek to `off`: bytes before `off` are kept,
a hole past the end of file reads as zeros, then `bs` is written. -/
def writeAt (f : List Nat) (off : Nat) (bs : List Nat) : List Nat :=
  f.take off ++ List.replicate (off - f.length) 0 ++ bs ++ f.drop (off + bs.length)

/-- Errors of the storage layer: a failed `read_exact` (unexpected end of
file), and a Rust panic from an out-of-range index or slice. -/
inductive Err where
  | unexpectedEof : Err
  | outOfBounds : Err
deriving DecidableEq

/-- The page cache (struct Pager): backing file bytes, current file cursor,
and the lazily populated page slots. -/
structure Pager where
  file : List Nat
  cursor : Nat
  pages : List (Option (List Nat))
deriving DecidableEq

/-- Total lookup of a page slot (`pages[i]` where `i` is known in range;
out of range yields `none`, matching an untracked slot). -/
def slotAt (ps : List (Option (List Nat))) (i : Nat) : Option (List Nat) :=
  ps.getD i none

/-- Pager::new - page count is ceil(file_length / 4096), no page loaded,
cursor at offset 0 (a freshly opened file handle). -/
def Pager.new (f : List Nat) : Pager :=
  ⟨f, 0, List.replicate ((f.length + (pageSize - 1)) / pageSize) none⟩

/-- Pager::get_page - grows the slot vector to cover `num`, then if the slot
is unloaded allocates a zero page and, when `num` lies within the file's
extent, reads `min 4096 (file_length - num*4096)` bytes with `read_exact`.
The read starts at the pager's *current cursor* (the Rust code computes
`offset` only to clamp the read length and never seeks). -/
def Pager.getPage (p : Pager) (num : Nat) : Except Err (List Nat) × Pager :=
  let pages1 :=
    if p.pages.length ≤ num then
      p.pages ++ List.replicate (num + 1 - p.pages.length) none
    else p.pages
  match slotAt pages1 num with
  | some page => (Except.ok page, { p with pages := pages1 })
  | none =>
    let fileLength := p.file.length
    let numPages := (fileLength + (pageSize - 1)) / pageSize
    if num < numPages then
      let offset := num * pageSize
      let btr := min pageSize (fileLength - offset)
      if p.cursor + btr ≤ fileLength then
        let page := readRange p.file p.cursor btr ++ List.replicate (pageSize - btr) 0
        (Except.ok page,
          { p with cursor := p.cursor + btr, pages := pages1.set num (some page) })
      else
        (Except.error Err.unexpectedEof, { p with cursor := fileLength, pages := pages1 })
    else
      let page := List.replicate pageSize 0
      (Except.ok page, { p with pages := pages1.set num (some page) })

/-- Pager::flush_page - `self.pages[index]` panics when `index` is out of
range; an unloaded slot is a silent no-op; otherwise seek to `index * 4096`
and write the first `size` bytes of the page buffer. -/
def Pager.flushPage (p : Pager) (index size : Nat) : Except Err Unit × Pager :=
  if index < p.pages.length then
    match slotAt p.pages index with
    | none => (Except.ok (), p)
    | some page =>
      if size ≤ page.length then
        let offset := index * pageSize
        (Except.ok (),
          { p with file := writeAt p.file offset (page.take size), cursor := offset + size })
      else (Except.error Err.outOfBounds, p)
  else (Except.error Err.outOfBounds, p)

/-- The table (struct Table): row count plus the pager. -/
structure Table where
  row_count : Nat
  pager : Pager
deriving DecidableEq

/-- Table::new - row_count is file_length / 291. -/
def Table.new (f : List Nat) : Table :=
  { row_count := f.length / rowSize, pager := Pager.new f }

/-- Table::insert - locate the target page and byte offset from row_count,
get the page, copy id, username and email at their fixed offsets, then
increment row_count.  On an error from get_page the (mutated) pager state
is kept and row_count is not incremented. -/
def Table.insert (t : Table) (r : Row) : Except Err Unit × Table :=
  let pageNum := t.row_count / rowsPerPage
  let byteOffset := (t.row_count % rowsPerPage) * rowSize
  match Pager.getPage t.pager pageNum with
  | (Except.ok page, p1) =>
    let pg1 := writeBytes page byteOffset (toLe4 r.id)
    let pg2 := writeBytes pg1 (byteOffset + idSize) r.username
    let pg3 := writeBytes pg2 (byteOffset + idSize + usernameSize) r.email
    (Except.ok (),
      { row_count := t.row_count + 1,
        pager := { p1 with pages := p1.pages.set pageNum (some pg3) } })
  | (Except.error e, p1) => (Except.error e, { t with pager := p1 })

/-- Table::deserialize_row - read the id, username and email byte ranges of
row `index` out of its page. -/
def Table.deserializeRow (t : Table) (index : Nat) : Except Err Row × Table :=
  let pageNum := index / rowsPerPage
  let byteOffset := (index % rowsPerPage) * rowSize
  match Pager.getPage t.pager pageNum with
  | (Except.ok page, p1) =>
    (Except.ok
      { id := fromLe4 (readRange page byteOffset idSize)
        username := readRange page (byteOffset + idSize) usernameSize
        email := readRange page (byteOffset + idSize + usernameSize) emailSize },
      { t with pager := p1 })
  | (Except.error e, p1) => (Except.error e, { t with pager := p1 })

/-- Decimal digits of a natural number as ASCII bytes (u32 Display). -/
def natDigits (n : Nat) : List Nat := (Nat.toDigits 10 n).map Char.toNat

/-- UTF-8 continuation byte test (0x80..=0xBF). -/
def isCont (b : Nat) : Bool := 128 ≤ b && b ≤ 191

/-- UTF-8 validity exactly as std::str::from_utf8 checks it: shortest-form
encodings, no surrogates, maximum U+10FFFF. -/
def validUtf8 : List Nat → Bool
  | [] => true
  | b :: rest =>
    if b ≤ 127 then validUtf8 rest
    else if 194 ≤ b && b ≤ 223 then
      match rest with
      | c1 :: rest2 => isCont c1 && validUtf8 rest2
      | [] => false
    else if b == 224 then
      match rest with
      | c1 :: c2 :: rest2 => (160 ≤ c1 && c1 ≤ 191) && isCont c2 && validUtf8 rest2
      | _ => false
    else if (225 ≤ b && b ≤ 236) || b == 238 || b == 239 then
      match rest with
      | c1 :: c2 :: rest2 => isCont c1 && isCont c2 && validUtf8 rest2
      | _ => false
    else if b == 237 then
      match rest with
      | c1 :: c2 :: rest2 => (128 ≤ c1 && c1 ≤ 159) && isCont c2 && validUtf8 rest2
      | _ => false
    else if b == 240 then
      match rest with
      | c1 :: c2 :: c3 :: rest2 =>
        (144 ≤ c1 && c1 ≤ 191) && isCont c2 && isCont c3 && validUtf8 rest2
      | _ => false
    else if 241 ≤ b && b ≤ 243 then
      match rest with
      | c1 :: c2 :: c3 :: rest2 => isCont c1 && isCont c2 && isCont c3 && validUtf8 rest2
      | _ => false
    else if b == 244 then
      match rest with
      | c1 :: c2 :: c3 :: rest2 =>
        (128 ≤ c1 && c1 ≤ 143) && isCont c2 && isCont c3 && validUtf8 rest2
      | _ => false
    else false

/-- Segments of a byte slice split at zero bytes (slice::split(|&b| b == 0)),
in order; adjacent separators yield empty segments, like the Rust iterator. -/
def splitOnZero : List Nat → List (List Nat)
  | [] => [[]]
  | b :: rest =>
    if b == 0 then [] :: splitOnZero rest
    else
      match splitOnZero rest with
      | [] => [[b]]
      | s :: ss => (b :: s) :: ss

/-- The bytes of the literal placeholder string. -/
def invalidUtf8Msg : List Nat := ("<Invalid utf-8>".data).map Char.toNat

/-- Row::bytes_to_str - first zero-separated segment, decoded as UTF-8,
falling back to the placeholder. -/
def bytesToStr (bs : List Nat) : List Nat :=
  match (splitOnZero bs).head? with
  | some seg => if validUtf8 seg then seg else invalidUtf8Msg
  | none => invalidUtf8Msg

/-- Display for Row: "(<id> <username> <email>)" as bytes. -/
def displayRow (r : Row) : List Nat :=
  [40] ++ natDigits r.id ++ [32] ++ bytesToStr r.username ++ [32] ++ bytesToStr r.email ++ [41]

/-- Table::select - scan rows 0..row_count in order, rendering each row's
display form followed by a newline.  `cnt` is the number of rows still to
visit, `i` the next row index. -/
def Table.selectFrom : Table → Nat → Nat → Except Err (List (List Nat)) × Table
  | t, _, 0 => (Except.ok [], t)
  | t, i, m + 1 =>
    match t.deserializeRow i with
    | (Except.ok r, t1) =>
      match Table.selectFrom t1 (i + 1) m with
      | (Except.ok lines, t2) => (Except.ok ((displayRow r ++ [10]) :: lines), t2)
      | (Except.error e, t2) => (Except.error e, t2)
    | (Except.error e, t1) => (Except.error e, t1)

/-- Table::select over the whole table. -/
def Table.select (t : Table) : Except Err (List (List Nat)) × Table :=
  Table.selectFrom t 0 t.row_count

/-- Observable shutdown events of Table::close: each call of flush_page it
makes (with the requested byte count) and the final sync_all. -/
inductive Ev where
  | flushEv (index size : Nat) : Ev
  | syncEv : Ev
deriving DecidableEq

/-- The `for i in 0..count` loop of Table::close: `pages[i]` (panics if out
of range), flush_page at the full page size for each loaded page. -/
def Table.closeLoop : Pager → Nat → Except Err (List Ev) × Pager
  | p, 0 => (Except.ok [], p)
  | p, m + 1 =>
    match Table.closeLoop p m with
    | (Except.ok evs, p1) =>
      if m < p1.pages.length then
        if (slotAt p1.pages m).isSome then
          match p1.flushPage m pageSize with
          | (Except.ok _, p2) => (Except.ok (evs ++ [Ev.flushEv m pageSize]), p2)
          | (Except.error e, p2) => (Except.error e, p2)
        else (Except.ok evs, p1)
      else (Except.error Err.outOfBounds, p1)
    | (Except.error e, p1) => (Except.error e, p1)

/-- Table::close - flush the row_count / 14 full pages at 4096 bytes each
(skipping never-loaded ones), then, if row_count % 14 is nonzero, flush the
trailing partial page at (row_count % 14) * 291 bytes, then sync_all. -/
def Table.close (t : Table) : Except Err (List Ev) × Table :=
  let fullPageCount := t.row_count / rowsPerPage
  match Table.closeLoop t.pager fullPageCount with
  | (Except.ok evs, p1) =>
    let additional := t.row_count % rowsPerPage
    if 0 < additional then
      match p1.flushPage fullPageCount (additional * rowSize) with
      | (Except.ok _, p2) =>
        (Except.ok (evs ++ [Ev.flushEv fullPageCount (additional * rowSize), Ev.syncEv]),
          { t with pager := p2 })
      | (Except.error e, p2) => (Except.error e, { t with pager := p2 })
    else (Except.ok (evs ++ [Ev.syncEv]), { t with pager := p1 })
  | (Except.error e, p1) => (Except.error e, { t with pager := p1 })

/-- Insert a list of rows in order, stopping at the first error. -/
def Table.insertAll : Table → List Row → Except Err Unit × Table
  | t, [] => (Except.ok (), t)
  | t, r :: rs =>
    match t.insert r with
    | (Except.ok _, t1) => Table.insertAll t1 rs
    | (Except.error e, t1) => (Except.error e, t1)

/-- ASCII whitespace byte (the bytes on which str::split_whitespace splits;
non-ASCII Unicode whitespace is outside this byte-level model). -/
def isWs (b : Nat) : Bool := b == 9 || b == 10 || b == 11 || b == 12 || b == 13 || b == 32

/-- Accumulating splitter: `acc` holds the current token reversed. -/
def splitWsGo : List Nat → List Nat → List (List Nat)
  | acc, [] => if acc.isEmpty then [] else [acc.reverse]
  | acc, b :: rest =>
    if isWs b then
      if acc.isEmpty then splitWsGo [] rest else acc.reverse :: splitWsGo [] rest
    else splitWsGo (b :: acc) rest

/-- str::split_whitespace on a byte string: the maximal runs of
non-whitespace bytes, in order, with no empty tokens. -/
def splitWs (s : List Nat) : List (List Nat) := splitWsGo [] s

/-- Parse errors surfaced by statement preparation (enum PrepareResult). -/
inductive PrepareResult where
  | syntaxError : PrepareResult
  | stringTooLong : PrepareResult
  | unrecognizedStatement : PrepareResult
deriving DecidableEq

/-- ASCII decimal digit test. -/
def isDigitB (b : Nat) : Bool := 48 ≤ b && b ≤ 57

/-- str::parse::<u32>: an optional leading '+', then one or more ASCII
digits, value at most u32::MAX. -/
def parseU32 (tok : List Nat) : Option Nat :=
  let digits :=
    match tok with
    | 43 :: rest => rest
    | _ => tok
  if digits.isEmpty then none
  else if digits.all isDigitB then
    let v := digits.foldl (fun acc b => acc * 10 + (b - 48)) 0
    if v < 4294967296 then some v else none
  else none

/-- The row built from three accepted fields: fields are copied into
zero-initialised fixed-width buffers, left-aligned and zero padded. -/
def mkRow (id : Nat) (u e : List Nat) : Row :=
  ⟨id, u ++ List.replicate (usernameSize - u.length) 0,
    e ++ List.replicate (emailSize - e.length) 0⟩

/-- Row::from_str - whitespace-split into id, username and email fields,
parse the id, bound-check the two byte fields, build the row. -/
def Row.fromStr (s : List Nat) : Except PrepareResult Row :=
  match splitWs s with
  | [] => Except.error PrepareResult.syntaxError
  | tid :: parts1 =>
    match parseU32 tid with
    | none => Except.error PrepareResult.syntaxError
    | some id =>
      match parts1 with
      | [] => Except.error PrepareResult.syntaxError
      | tu :: parts2 =>
        if usernameSize < tu.length then Except.error PrepareResult.stringTooLong
        else
          match parts2 with
          | [] => Except.error PrepareResult.syntaxError
          | te :: _ =>
            if emailSize < te.length then Except.error PrepareResult.stringTooLong
            else Except.ok (mkRow id tu te)

/-- A page slot is well formed when a loaded buffer has exactly 4096 bytes
(in Rust this is enforced by the type [u8; 4096]). -/
def pageOk (q : Option (List Nat)) : Bool :=
  match q with
  | none => true
  | some b => b.length == 4096

/-- All page slots well formed. -/
def pagesWF (ps : List (Option (List Nat))) : Bool := ps.all pageOk

/-- A row as produced by Row::from_str: a u32 id and full-width buffers. -/
def validRow (r : Row) : Prop :=
  r.id < 4294967296 ∧ r.username.length = usernameSize ∧ r.email.length = emailSize

instance : DecidablePred validRow := fun r => by
  unfold validRow; infer_instance

deriving instance DecidableEq for Except

/-! ### Byte-buffer algebra -/

theorem slotAt_oob {ps : List (Option (List Nat))} {i : Nat} (h : ps.length ≤ i) :
    slotAt ps i = none := by
  simp [slotAt, List.getD_eq_getElem?_getD, List.getElem?_eq_none h]

theorem slotAt_replicate (m i : Nat) : slotAt (List.replicate m none) i = none := by
  rcases Nat.lt_or_ge i m with h | h
  · simp [slotAt, List.getD_eq_getElem?_getD, List.getElem?_replicate, h]
  · exact slotAt_oob (by simpa using h)

theorem slotAt_append_left {ps qs : List (Option (List Nat))} {i : Nat}
    (h : i < ps.length) : slotAt (ps ++ qs) i = slotAt ps i := by
  simp [slotAt, List.getD_eq_getElem?_getD, List.getElem?_append_left h]

theorem slotAt_append_none {ps : List (Option (List Nat))} {k i : Nat} :
    slotAt (ps ++ List.replicate k none) i = none ∨
      slotAt (ps ++ List.replicate k none) i = slotAt ps i := by
  rcases Nat.lt_or_ge i ps.length with h | h
  · exact Or.inr (slotAt_append_left h)
  · left
    rcases Nat.lt_or_ge i (ps.length + k) with h2 | h2
    · have : i - ps.length < k := by omega
      simp [slotAt, List.getD_eq_getElem?_getD, List.getElem?_append_right h,
        List.getElem?_replicate, this]
    · exact slotAt_oob (by simpa using h2)

theorem slotAt_set_self {ps : List (Option (List Nat))} {i : Nat}
    (h : i < ps.length) (a : Option (List Nat)) : slotAt (ps.set i a) i = a := by
  simp [slotAt, List.getD_eq_getElem?_getD, List.getElem?_set, h]

theorem slotAt_set_ne {ps : List (Option (List Nat))} {i j : Nat}
    (h : i ≠ j) (a : Option (List Nat)) : slotAt (ps.set i a) j = slotAt ps j := by
  simp [slotAt, List.getD_eq_getElem?_getD, List.getElem?_set_ne h]

theorem length_writeBytes {l bs : List Nat} {off : Nat} (h : off + bs.length ≤ l.length) :
    (writeBytes l off bs).length = l.length := by
  simp [writeBytes]; omega

theorem readRange_writeBytes_self {l bs : List Nat} {off : Nat} (h : off ≤ l.length) :
    readRange (writeBytes l off bs) off bs.length = bs := by
  unfold readRange writeBytes
  rw [List.append_assoc, List.drop_left' (by simp only [List.length_take]; omega),
    List.take_left]

theorem readRange_writeBytes_before {l bs : List Nat} {off off2 len2 : Nat}
    (h1 : off2 + len2 ≤ off) (h2 : off ≤ l.length) :
    readRange (writeBytes l off bs) off2 len2 = readRange l off2 len2 := by
  unfold readRange writeBytes
  rw [List.append_assoc, List.drop_append_of_le_length (by simp; omega),
    List.take_append_of_le_length (by simp; omega), List.drop_take, List.take_take,
    Nat.min_eq_left (by omega)]

theorem readRange_sub {l : List Nat} {off len a m : Nat} (h : a + m ≤ len) :
    readRange l (off + a) m = ((readRange l off len).drop a).take m := by
  unfold readRange
  rw [List.drop_take, List.drop_drop, List.take_take, Nat.min_eq_left (by omega)]

theorem writeBytes_writeBytes {l a b : List Nat} {off : Nat} (h : off ≤ l.length) :
    writeBytes (writeBytes l off a) (off + a.length) b = writeBytes l off (a ++ b) := by
  unfold writeBytes
  have h1 : (l.take off ++ a).length = off + a.length := by simp; omega
  rw [List.take_left' h1, List.drop_append_eq_append_drop,
    List.drop_eq_nil_of_le (by simp; omega), h1, List.drop_drop]
  simp [List.append_assoc, Nat.add_assoc]

theorem writeAt_append {f bs : List Nat} {off : Nat} (h : off = f.length) :
    writeAt f off bs = f ++ bs := by
  subst h
  simp [writeAt, List.drop_eq_nil_of_le]

theorem readRange_append_right (A B : List Nat) (x len : Nat) :
    readRange (A ++ B) (A.length + x) len = readRange B x len := by
  unfold readRange
  rw [← List.drop_drop, List.drop_left]

theorem readRange_append_left {A : List Nat} (B : List Nat) {off len : Nat}
    (h : off + len ≤ A.length) :
    readRange (A ++ B) off len = readRange A off len := by
  unfold readRange
  rw [List.drop_append_of_le_length (by omega),
    List.take_append_of_le_length (by simp; omega)]

theorem readRange_take {l : List Nat} {off len m : Nat} (h : off + len ≤ m) :
    readRange (l.take m) off len = readRange l off len := by
  unfold readRange
  rw [List.drop_take, List.take_take, Nat.min_eq_left (by omega)]

theorem readRange_length {l : List Nat} {off len : Nat} (h : off + len ≤ l.length) :
    (readRange l off len).length = len := by
  simp [readRange]; omega

theorem fromLe4_toLe4 {n : Nat} (h : n < 4294967296) : fromLe4 (toLe4 n) = n := by
  simp [fromLe4, toLe4]
  omega

theorem length_toLe4 (n : Nat) : (toLe4 n).length = 4 := rfl

theorem length_serializeRow {r : Row} (h : validRow r) : (serializeRow r).length = 291 := by
  obtain ⟨-, h2, h3⟩ := h
  simp [serializeRow, h2, h3, usernameSize, emailSize, length_toLe4]

/-! ### Evaluation lemmas for Pager.getPage -/

theorem getPage_cached {p : Pager} {num : Nat} {pg : List Nat}
    (hlt : num < p.pages.length) (hslot : slotAt p.pages num = some pg) :
    Pager.getPage p num = (Except.ok pg, p) := by
  simp only [Pager.getPage]
  rw [if_neg (Nat.not_le.mpr hlt), hslot]

theorem getPage_grow_empty {p : Pager} {num : Nat}
    (hfile : p.file = []) (hlen : p.pages.length = num) :
    Pager.getPage p num = (Except.ok (List.replicate 4096 0),
      { p with pages := (p.pages ++ [none]).set num (some (List.replicate 4096 0)) }) := by
  simp only [Pager.getPage]
  rw [if_pos (by omega)]
  have h1 : num + 1 - p.pages.length = 1 := by omega
  rw [h1, List.replicate_one]
  have h2 : slotAt (p.pages ++ [none]) num = none := by
    simp [slotAt, List.getD_eq_getElem?_getD, ← hlen, List.getElem?_concat_length]
  rw [h2, hfile]
  norm_num [pageSize]

def pl (k : Nat) : Nat := (k + 13) / 14

structure FS (rows : List Row) (t : Table) : Prop where
  rc : t.row_count = rows.length
  file : t.pager.file = []
  cur : t.pager.cursor = 0
  plen : t.pager.pages.length = pl rows.length
  loaded : ∀ j, j < pl rows.length →
    ∃ p, slotAt t.pager.pages j = some p ∧ p.length = 4096
  content : ∀ i, i < rows.length → ∃ p, slotAt t.pager.pages (i / 14) = some p ∧
    readRange p ((i % 14) * 291) 291 = serializeRow (rows.getD i defaultRow)

theorem fs_nil : FS [] (Table.new []) := by
  refine ⟨rfl, rfl, rfl, ?_, ?_, ?_⟩
  · simp [Table.new, Pager.new, pl, pageSize]
  · intro j hj; simp [pl] at hj
  · intro i hi; simp at hi

theorem insert_writes {page : List Nat} {off : Nat} {r : Row} (hv : validRow r)
    (hoff : off ≤ page.length) :
    writeBytes (writeBytes (writeBytes page off (toLe4 r.id)) (off + idSize) r.username)
      (off + idSize + usernameSize) r.email = writeBytes page off (serializeRow r) := by
  obtain ⟨-, h2, h3⟩ := hv
  have ha : off + idSize = off + (toLe4 r.id).length := by rw [length_toLe4]; rfl
  rw [ha, writeBytes_writeBytes hoff]
  have hb : off + (toLe4 r.id).length + usernameSize = off + (toLe4 r.id ++ r.username).length := by
    simp [length_toLe4, h2, idSize, usernameSize]
  rw [hb, writeBytes_writeBytes hoff, serializeRow, List.append_assoc]

theorem pl_succ_ne {k : Nat} (h : k % 14 ≠ 0) : pl (k + 1) = pl k := by
  unfold pl; omega

theorem pl_succ_eq {k : Nat} (h : k % 14 = 0) : pl (k + 1) = pl k + 1 := by
  unfold pl; omega

theorem div14_lt_pl {k : Nat} (h : k % 14 ≠ 0) : k / 14 < pl k := by
  unfold pl; omega

theorem div14_eq_pl {k : Nat} (h : k % 14 = 0) : k / 14 = pl k := by
  unfold pl; omega

theorem div14_lt_pl_of_lt {i k : Nat} (h : i < k) : i / 14 < pl k := by
  unfold pl; omega

theorem off_le {k : Nat} : k % 14 * 291 + 291 ≤ 4096 := by omega

theorem insert_fresh {rows : List Row} {r : Row} {t : Table}
    (hfs : FS rows t) (hv : validRow r) :
    ∃ t', t.insert r = (Except.ok (), t') ∧ FS (rows ++ [r]) t' := by
  obtain ⟨hrc, hfile, hcur, hplen, hloaded, hcontent⟩ := hfs
  have hser : (serializeRow r).length = 291 := length_serializeRow hv
  have hra : (rows ++ [r]).length = rows.length + 1 := by simp
  by_cases hmod : rows.length % 14 = 0
  · -- new page is allocated
    have hnum : t.pager.pages.length = rows.length / 14 := by
      rw [hplen, div14_eq_pl hmod]
    have hget := getPage_grow_empty hfile hnum
    have hwr := @insert_writes (List.replicate 4096 0) (rows.length % 14 * 291) r hv
      (by simp only [List.length_replicate]; omega)
    refine ⟨(t.insert r).2, Prod.ext ?_ rfl, ?_⟩
    · simp only [Table.insert, rowsPerPage_eq, rowSize_eq, hrc, hget]
    · simp only [Table.insert, rowsPerPage_eq, rowSize_eq, hrc, hget, hwr, List.set_set]
      set pg3 := writeBytes (List.replicate 4096 0) (rows.length % 14 * 291) (serializeRow r)
        with hpg3
      have hpg3len : pg3.length = 4096 := by
        rw [hpg3, @length_writeBytes (List.replicate 4096 0) (serializeRow r)
          (rows.length % 14 * 291) (by simp only [List.length_replicate, hser]; omega)]
        simp only [List.length_replicate]
      constructor
      · dsimp only; rw [hra]
      · exact hfile
      · exact hcur
      · dsimp only
        rw [List.length_set, List.length_append, hra, hplen, pl_succ_eq hmod]
        simp
      · intro j hj
        dsimp only
        rw [hra, pl_succ_eq hmod] at hj
        rcases Nat.lt_or_ge j (pl rows.length) with hj2 | hj2
        · obtain ⟨p, hp, hplen2⟩ := hloaded j hj2
          refine ⟨p, ?_, hplen2⟩
          rw [slotAt_set_ne (by rw [div14_eq_pl hmod]; omega) _,
            slotAt_append_left (by rw [hplen]; omega)]
          exact hp
        · have hj3 : j = pl rows.length := by omega
          subst hj3
          refine ⟨pg3, ?_, hpg3len⟩
          rw [← div14_eq_pl hmod, slotAt_set_self (by simp [hnum]) _]
      · intro i hi
        dsimp only
        rw [hra] at hi
        rcases Nat.lt_or_ge i rows.length with hi2 | hi2
        · obtain ⟨p, hp, hread⟩ := hcontent i hi2
          refine ⟨p, ?_, ?_⟩
          · have hipl : i / 14 < pl rows.length := div14_lt_pl_of_lt hi2
            rw [slotAt_set_ne (by rw [div14_eq_pl hmod]; omega) _,
              slotAt_append_left (by rw [hplen]; omega)]
            exact hp
          · rw [List.getD_append _ _ _ _ hi2]; exact hread
        · have hi3 : i = rows.length := by omega
          subst hi3
          refine ⟨pg3, ?_, ?_⟩
          · rw [slotAt_set_self (by simp [hnum]) _]
          · rw [List.getD_append_right _ _ _ _ (le_refl _), Nat.sub_self]
            simp only [List.getD_cons_zero]
            have hself := @readRange_writeBytes_self (List.replicate 4096 0) (serializeRow r)
              (rows.length % 14 * 291) (by simp only [List.length_replicate]; omega)
            rw [hser] at hself
            rw [hpg3, hself]
  · -- the last page is already allocated
    have hlt' : rows.length / 14 < pl rows.length := div14_lt_pl hmod
    have hlt : rows.length / 14 < t.pager.pages.length := by rw [hplen]; exact hlt'
    obtain ⟨pg, hslot, hpglen⟩ := hloaded _ hlt'
    have hget := getPage_cached hlt hslot
    have hwr := @insert_writes pg (rows.length % 14 * 291) r hv (by rw [hpglen]; omega)
    refine ⟨(t.insert r).2, Prod.ext ?_ rfl, ?_⟩
    · simp only [Table.insert, rowsPerPage_eq, rowSize_eq, hrc, hget]
    · simp only [Table.insert, rowsPerPage_eq, rowSize_eq, hrc, hget, hwr]
      set pg3 := writeBytes pg (rows.length % 14 * 291) (serializeRow r) with hpg3
      have hpg3len : pg3.length = 4096 := by
        rw [hpg3, @length_writeBytes pg (serializeRow r) (rows.length % 14 * 291)
          (by rw [hpglen, hser]; exact off_le)]
        exact hpglen
      constructor
      · dsimp only; rw [hra]
      · exact hfile
      · exact hcur
      · dsimp only
        rw [List.length_set, hra, hplen, pl_succ_ne hmod]
      · intro j hj
        dsimp only
        rw [hra, pl_succ_ne hmod] at hj
        by_cases hj2 : j = rows.length / 14
        · subst hj2
          exact ⟨pg3, slotAt_set_self hlt _, hpg3len⟩
        · obtain ⟨p, hp, hplen2⟩ := hloaded j hj
          exact ⟨p, by rw [slotAt_set_ne (fun h => hj2 h.symm) _]; exact hp, hplen2⟩
      · intro i hi
        dsimp only
        rw [hra] at hi
        rcases Nat.lt_or_ge i rows.length with hi2 | hi2
        · obtain ⟨p, hp, hread⟩ := hcontent i hi2
          by_cases hsame : i / 14 = rows.length / 14
          · -- same page as the write: the read lies below the written range
            rw [hsame] at hp
            rw [hp] at hslot
            have hpeq : p = pg := Option.some_inj.mp hslot
            have himod : i % 14 < rows.length % 14 := by omega
            refine ⟨pg3, ?_, ?_⟩
            · rw [hsame, slotAt_set_self hlt _]
            · rw [List.getD_append _ _ _ _ hi2, hpg3,
                @readRange_writeBytes_before pg (serializeRow r) (rows.length % 14 * 291)
                  (i % 14 * 291) 291 (by omega) (by rw [hpglen]; omega), ← hpeq]
              exact hread
          · refine ⟨p, ?_, ?_⟩
            · rw [slotAt_set_ne (fun h => hsame h.symm) _]; exact hp
            · rw [List.getD_append _ _ _ _ hi2]; exact hread
        · have hi3 : i = rows.length := by omega
          subst hi3
          refine ⟨pg3, ?_, ?_⟩
          · rw [slotAt_set_self hlt _]
          · rw [List.getD_append_right _ _ _ _ (le_refl _), Nat.sub_self]
            simp only [List.getD_cons_zero]
            have hself := @readRange_writeBytes_self pg (serializeRow r)
              (rows.length % 14 * 291) (by rw [hpglen]; omega)
            rw [hser] at hself
            rw [hpg3, hself]

theorem insertAll_fresh {rows : List Row} {rows0 : List Row} {t : Table} (hfs : FS rows0 t)
    (hv : ∀ r ∈ rows, validRow r) :
    ∃ t', Table.insertAll t rows = (Except.ok (), t') ∧ FS (rows0 ++ rows) t' := by
  induction rows generalizing rows0 t with
  | nil => exact ⟨t, rfl, by simpa using hfs⟩
  | cons r rs ih =>
    obtain ⟨t1, hins, hfs1⟩ := insert_fresh hfs (hv r (by simp))
    obtain ⟨t', hall, hfs'⟩ := ih hfs1 (fun x hx => hv x (by simp [hx]))
    refine ⟨t', ?_, by simpa [List.append_assoc] using hfs'⟩
    simp only [Table.insertAll, hins, hall]

/-! ### Close lemmas -/

def pagesConcat (ps : List (Option (List Nat))) : Nat → List Nat
  | 0 => []
  | m + 1 => pagesConcat ps m ++ ((slotAt ps m).getD []).take 4096

theorem pagesConcat_length {ps : List (Option (List Nat))} {m : Nat}
    (h : ∀ j, j < m → ∃ p, slotAt ps j = some p ∧ p.length = 4096) :
    (pagesConcat ps m).length = m * 4096 := by
  induction m with
  | zero => rfl
  | succ m ih =>
    obtain ⟨p, hp, hlen⟩ := h m (by omega)
    simp only [pagesConcat, List.length_append, ih (fun j hj => h j (by omega)), hp,
      Option.getD_some, List.length_take, hlen]
    omega

theorem closeLoop_none {p : Pager} {count : Nat}
    (hcount : count ≤ p.pages.length)
    (h : ∀ j, j < count → slotAt p.pages j = none) :
    Table.closeLoop p count = (Except.ok [], p) := by
  induction count with
  | zero => rfl
  | succ m ih =>
    rw [Table.closeLoop, ih (by omega) (fun j hj => h j (by omega))]
    simp only [if_pos (show m < p.pages.length by omega), h m (by omega), Option.isSome_none,
      Bool.false_eq_true, if_false]

theorem closeLoop_loaded {p : Pager} {count : Nat}
    (hcount : count ≤ p.pages.length)
    (hfile : p.file = [])
    (h : ∀ j, j < count → ∃ q, slotAt p.pages j = some q ∧ q.length = 4096) :
    Table.closeLoop p count =
      (Except.ok ((List.range count).map fun i => Ev.flushEv i pageSize),
        { p with file := pagesConcat p.pages count,
                 cursor := if count = 0 then p.cursor else count * 4096 }) := by
  induction count with
  | zero =>
    show (Except.ok [], p) = _
    rw [if_pos rfl]
    conv_rhs => rw [show pagesConcat p.pages 0 = [] from rfl, ← hfile]
    rfl
  | succ m ih =>
    obtain ⟨q, hq, hqlen⟩ := h m (by omega)
    rw [Table.closeLoop, ih (by omega) (fun j hj => h j (by omega))]
    simp only []
    dsimp only
    rw [if_pos (show m < p.pages.length by omega), hq]
    simp only [Option.isSome_some, if_true]
    rw [Pager.flushPage]
    dsimp only
    rw [if_pos (show m < p.pages.length by omega), hq]
    dsimp only
    rw [if_pos (show pageSize ≤ q.length by rw [hqlen]; exact Nat.le_refl _)]
    have hwr : writeAt (pagesConcat p.pages m) (m * pageSize) (q.take pageSize) =
        pagesConcat p.pages (m + 1) := by
      rw [pageSize_eq,
        writeAt_append (pagesConcat_length (fun j hj => h j (by omega))).symm]
      rw [pagesConcat, hq, Option.getD_some]
    rw [hwr]
    simp only [List.range_succ, List.map_append, List.map_cons, List.map_nil, pageSize_eq]
    have hcur : m * 4096 + 4096 = (m + 1) * 4096 := by omega
    rw [hcur, if_neg (Nat.succ_ne_zero m)]

theorem pl_ge_div (k : Nat) : k / 14 ≤ pl k := by unfold pl; omega

theorem wf_slot {ps : List (Option (List Nat))} (hwf : pagesWF ps = true) {i : Nat}
    {b : List Nat} (h : slotAt ps i = some b) : b.length = 4096 := by
  rcases Nat.lt_or_ge i ps.length with hlt | hge
  · have h2 := h
    rw [slotAt, List.getD_eq_getElem?_getD, List.getElem?_eq_getElem hlt] at h2
    simp only [Option.getD_some] at h2
    have hmem : some b ∈ ps := h2 ▸ List.getElem_mem hlt
    have := (List.all_eq_true.mp hwf) _ hmem
    simpa [pageOk] using this
  · rw [slotAt_oob hge] at h
    cases h

theorem flushPage_ok {p : Pager} {index size : Nat}
    (hidx : index < p.pages.length) (hwf : pagesWF p.pages = true) (hsize : size ≤ 4096) :
    ∃ p2, p.flushPage index size = (Except.ok (), p2) ∧ p2.pages = p.pages := by
  rw [Pager.flushPage, if_pos hidx]
  cases hslot : slotAt p.pages index with
  | none => exact ⟨p, rfl, rfl⟩
  | some q =>
    dsimp only
    rw [if_pos (show size ≤ q.length by rw [wf_slot hwf hslot]; exact hsize)]
    exact ⟨_, rfl, rfl⟩

theorem closeLoop_wf {p : Pager} {count : Nat}
    (hcount : count ≤ p.pages.length)
    (hwf : pagesWF p.pages = true) :
    ∃ p', Table.closeLoop p count =
      (Except.ok (((List.range count).filter fun i => (slotAt p.pages i).isSome).map
          fun i => Ev.flushEv i pageSize), p') ∧
      p'.pages = p.pages := by
  induction count with
  | zero => exact ⟨p, rfl, rfl⟩
  | succ m ih =>
    obtain ⟨p1, hloop, hpages⟩ := ih (by omega)
    by_cases hs : (slotAt p.pages m).isSome = true
    · obtain ⟨q, hq⟩ := Option.isSome_iff_exists.mp hs
      have hq1 : slotAt p1.pages m = some q := by rw [hpages]; exact hq
      obtain ⟨p2, hflush, hpages2⟩ := flushPage_ok
        (show m < p1.pages.length by rw [hpages]; omega)
        (show pagesWF p1.pages = true by rw [hpages]; exact hwf)
        (show pageSize ≤ 4096 from Nat.le_refl _)
      refine ⟨p2, ?_, by rw [hpages2, hpages]⟩
      rw [Table.closeLoop, hloop]
      dsimp only
      rw [if_pos (show m < p1.pages.length by rw [hpages]; omega), hq1]
      simp only [Option.isSome_some, if_true]
      rw [hflush]
      dsimp only
      rw [List.range_succ, List.filter_append, List.map_append]
      simp [hs]
    · refine ⟨p1, ?_, hpages⟩
      rw [Table.closeLoop, hloop]
      dsimp only
      rw [if_pos (show m < p1.pages.length by rw [hpages]; omega)]
      rw [show slotAt p1.pages m = slotAt p.pages m by rw [hpages]]
      simp only [Bool.not_eq_true] at hs
      rw [hs]
      simp only [Option.isSome_none, Bool.false_eq_true, if_false]
      rw [List.range_succ, List.filter_append]
      simp [hs]

def closedFile (ps : List (Option (List Nat))) (n : Nat) : List Nat :=
  pagesConcat ps (n / 14) ++
    (if n % 14 ≠ 0 then ((slotAt ps (n / 14)).getD []).take (n % 14 * 291) else [])

theorem close_fresh {rows : List Row} {t : Table} (hfs : FS rows t) :
    ∃ evs c', Table.close t = (Except.ok evs,
      { row_count := t.row_count,
        pager := { file := closedFile t.pager.pages rows.length, cursor := c',
                   pages := t.pager.pages } }) := by
  obtain ⟨hrc, hfile, hcur, hplen, hloaded, hcontent⟩ := hfs
  have hle : rows.length / 14 ≤ t.pager.pages.length := by
    rw [hplen]; exact pl_ge_div _
  have hloop := closeLoop_loaded hle hfile
    (fun j hj => hloaded j (by have := pl_ge_div rows.length; omega))
  rw [Table.close]
  simp only [rowsPerPage_eq, rowSize_eq, hrc]
  rw [hloop]
  dsimp only
  by_cases hmod : rows.length % 14 = 0
  · rw [if_neg (show ¬ 0 < rows.length % 14 by omega)]
    refine ⟨List.map (fun i => Ev.flushEv i pageSize) (List.range (rows.length / 14)) ++
      [Ev.syncEv],
      if rows.length / 14 = 0 then t.pager.cursor else rows.length / 14 * 4096, ?_⟩
    rw [closedFile, if_neg (show ¬ rows.length % 14 ≠ 0 by omega), List.append_nil]
  · have hltf : rows.length / 14 < t.pager.pages.length := by
      rw [hplen]; exact div14_lt_pl hmod
    obtain ⟨q, hq, hqlen⟩ := hloaded _ (by rw [← hplen]; exact hltf)
    rw [if_pos (show 0 < rows.length % 14 by omega)]
    rw [Pager.flushPage]
    dsimp only
    rw [if_pos hltf, hq]
    dsimp only
    rw [if_pos (show rows.length % 14 * 291 ≤ q.length by rw [hqlen]; omega)]
    refine ⟨List.map (fun i => Ev.flushEv i pageSize) (List.range (rows.length / 14)) ++
      [Ev.flushEv (rows.length / 14) (rows.length % 14 * 291), Ev.syncEv],
      rows.length / 14 * pageSize + rows.length % 14 * 291, ?_⟩
    have hfileEq : writeAt (pagesConcat t.pager.pages (rows.length / 14))
        (rows.length / 14 * pageSize) (q.take (rows.length % 14 * 291)) =
        closedFile t.pager.pages rows.length := by
      rw [pageSize_eq, writeAt_append (pagesConcat_length
        (fun j hj => hloaded j (by have := pl_ge_div rows.length; omega))).symm]
      rw [closedFile, if_pos hmod, hq, Option.getD_some]
    rw [hfileEq]

theorem readRange_pagesConcat {ps : List (Option (List Nat))} {m : Nat} {rest : List Nat}
    {j off len : Nat}
    (h : ∀ x, x < m → ∃ p, slotAt ps x = some p ∧ p.length = 4096)
    (hj : j < m) (hidx : off + len ≤ 4096) :
    readRange (pagesConcat ps m ++ rest) (j * 4096 + off) len =
      readRange ((slotAt ps j).getD []) off len := by
  induction m generalizing rest with
  | zero => omega
  | succ m ih =>
    rcases Nat.lt_or_ge j m with hj2 | hj2
    · rw [pagesConcat, List.append_assoc]
      exact ih (fun x hx => h x (by omega)) hj2
    · have hj3 : j = m := by omega
      subst hj3
      obtain ⟨p, hp, hplen⟩ := h j (by omega)
      rw [pagesConcat, List.append_assoc]
      have hlen2 : (pagesConcat ps j).length = j * 4096 :=
        pagesConcat_length (fun x hx => h x (by omega))
      rw [← hlen2, readRange_append_right, hp, Option.getD_some]
      have hL : readRange (List.take 4096 p ++ rest) off len =
          readRange (List.take 4096 p) off len :=
        readRange_append_left rest (by rw [List.length_take, hplen]; omega)
      rw [hL, readRange_take hidx]

theorem closedFile_length {ps : List (Option (List Nat))} {n : Nat}
    (h : ∀ j, j < pl n → ∃ p, slotAt ps j = some p ∧ p.length = 4096) :
    (closedFile ps n).length = (n / 14) * 4096 + (n % 14) * 291 := by
  have hsub : ∀ x, x < n / 14 → ∃ p, slotAt ps x = some p ∧ p.length = 4096 :=
    fun x hx => h x (by have := pl_ge_div n; omega)
  rw [closedFile, List.length_append, pagesConcat_length hsub]
  by_cases hmod : n % 14 = 0
  · rw [if_neg (show ¬ n % 14 ≠ 0 by omega)]
    simp [hmod]
  · obtain ⟨q, hq, hqlen⟩ := h (n / 14) (div14_lt_pl hmod)
    rw [if_pos hmod, hq, Option.getD_some, List.length_take, hqlen]
    omega

theorem readRange_closedFile {ps : List (Option (List Nat))} {n i : Nat}
    (h : ∀ j, j < pl n → ∃ p, slotAt ps j = some p ∧ p.length = 4096)
    (hi : i < n) :
    readRange (closedFile ps n) ((i / 14) * 4096 + (i % 14) * 291) 291 =
      readRange ((slotAt ps (i / 14)).getD []) ((i % 14) * 291) 291 := by
  have hsub : ∀ x, x < n / 14 → ∃ p, slotAt ps x = some p ∧ p.length = 4096 :=
    fun x hx => h x (by have := pl_ge_div n; omega)
  rw [closedFile]
  rcases Nat.lt_or_ge (i / 14) (n / 14) with hcase | hcase
  · exact readRange_pagesConcat hsub hcase (by omega)
  · have hdiv : i / 14 = n / 14 := by omega
    have himod : i % 14 < n % 14 := by omega
    have hmod : n % 14 ≠ 0 := by omega
    rw [if_pos hmod]
    obtain ⟨q, hq, hqlen⟩ := h (n / 14) (div14_lt_pl hmod)
    rw [hdiv, ← pagesConcat_length hsub, readRange_append_right, hq, Option.getD_some]
    rw [readRange_take (by omega)]

theorem session_closed {rows : List Row} (hv : ∀ r ∈ rows, validRow r) :
    ∃ t tc evs, (Table.new []).insertAll rows = (Except.ok (), t) ∧ FS rows t ∧
      Table.close t = (Except.ok evs, tc) ∧
      tc.row_count = rows.length ∧
      tc.pager.pages = t.pager.pages ∧
      tc.pager.file = closedFile t.pager.pages rows.length ∧
      tc.pager.file.length = (rows.length / 14) * 4096 + (rows.length % 14) * 291 ∧
      (∀ i, i < rows.length →
        readRange tc.pager.file ((i / 14) * 4096 + (i % 14) * 291) 291 =
          serializeRow (rows.getD i defaultRow)) := by
  obtain ⟨t, hall, hfs0⟩ := insertAll_fresh fs_nil hv
  have hfs : FS rows t := by rwa [List.nil_append] at hfs0
  obtain ⟨evs, c', hclose⟩ := close_fresh hfs
  refine ⟨t, _, evs, hall, hfs, hclose, hfs.rc, rfl, rfl, ?_, ?_⟩
  · exact closedFile_length hfs.loaded
  · intro i hi
    dsimp only
    rw [readRange_closedFile hfs.loaded hi]
    obtain ⟨p, hp, hread⟩ := hfs.content i hi
    rw [hp, Option.getD_some]
    exact hread

set_option maxRecDepth 8000

/-! ### Claim C1 -/

/-- A sample valid row: id 1, username of 32 'a' bytes, email of 255 'b'
bytes. -/
def rowA : Row := ⟨1, List.replicate 32 97, List.replicate 255 98⟩

/-- Fourteen copies of the sample row: exactly one full page. -/
def rows14 : List Row := List.replicate 14 rowA

/-- C1 (amended): a session inserting n valid rows into an empty table and
then closing produces a file of length (n/14)*4096 + (n%14)*291 — full pages
are flushed at 4096 bytes, i.e. with 22 bytes of zero padding beyond their
14 rows — row i's 291 encoded bytes start at file offset
(i/14)*4096 + (i%14)*291, and reopening recovers
row_count = n + (22*(n/14))/291, which equals n exactly whenever n ≤ 195. -/
theorem c1_paged_file_layout (rows : List Row) (hv : ∀ r ∈ rows, validRow r) :
    ∃ t tc evs, (Table.new []).insertAll rows = (Except.ok (), t) ∧
      Table.close t = (Except.ok evs, tc) ∧
      tc.pager.file.length = (rows.length / 14) * 4096 + (rows.length % 14) * 291 ∧
      (∀ i, i < rows.length →
        readRange tc.pager.file ((i / 14) * 4096 + (i % 14) * 291) 291 =
          serializeRow (rows.getD i defaultRow)) ∧
      (Table.new tc.pager.file).row_count = rows.length + 22 * (rows.length / 14) / 291 ∧
      (rows.length ≤ 195 → (Table.new tc.pager.file).row_count = rows.length) := by
  obtain ⟨t, tc, evs, hall, hfs, hclose, -, -, -, hlen, hrows⟩ := session_closed hv
  refine ⟨t, tc, evs, hall, hclose, hlen, hrows, ?_, ?_⟩
  · simp only [Table.new, rowSize_eq, hlen]
    omega
  · intro h
    simp only [Table.new, rowSize_eq, hlen]
    omega

/-- C1 witness: the amended layout theorem instantiated with three concrete
valid rows. -/
theorem c1_paged_file_layout_witness :
    (∀ r ∈ List.replicate 3 rowA, validRow r) ∧
    (∃ t tc evs, (Table.new []).insertAll (List.replicate 3 rowA) = (Except.ok (), t) ∧
      Table.close t = (Except.ok evs, tc) ∧
      tc.pager.file.length = ((List.replicate 3 rowA).length / 14) * 4096 +
        ((List.replicate 3 rowA).length % 14) * 291 ∧
      (∀ i, i < (List.replicate 3 rowA).length →
        readRange tc.pager.file ((i / 14) * 4096 + (i % 14) * 291) 291 =
          serializeRow ((List.replicate 3 rowA).getD i defaultRow)) ∧
      (Table.new tc.pager.file).row_count =
        (List.replicate 3 rowA).length + 22 * ((List.replicate 3 rowA).length / 14) / 291 ∧
      ((List.replicate 3 rowA).length ≤ 195 →
        (Table.new tc.pager.file).row_count = (List.replicate 3 rowA).length)) :=
  ⟨by decide, c1_paged_file_layout (List.replicate 3 rowA) (by decide)⟩

/-- C1 counterexample: a session inserting 14 valid rows into an empty table
and closing yields a 4096-byte file — not 14*291 = 4074 bytes, and not a
multiple of 291 — because the full page is flushed at the full page size. -/
theorem c1_counterexample :
    ∃ t tc evs, (Table.new []).insertAll rows14 = (Except.ok (), t) ∧
      Table.close t = (Except.ok evs, tc) ∧
      tc.pager.file.length = 4096 ∧ tc.pager.file.length ≠ 14 * 291 ∧
      ¬ (291 ∣ tc.pager.file.length) := by
  obtain ⟨t, tc, evs, hall, hfs, hclose, -, -, -, hlen, -⟩ :=
    session_closed (show ∀ r ∈ rows14, validRow r by decide)
  have h14 : rows14.length = 14 := by simp [rows14]
  rw [h14] at hlen
  norm_num at hlen
  exact ⟨t, tc, evs, hall, hclose, hlen, by omega, by rw [hlen]; decide⟩

/-! ### Claim C2 -/

def c2File : List Nat := List.replicate 4096 1 ++ List.replicate 291 2
theorem c2File_length : c2File.length = 4387 := by
  rw [c2File, List.length_append, List.length_replicate, List.length_replicate]
theorem c2File_pager_pages : (Pager.new c2File).pages = List.replicate 2 none := by
  rw [Pager.new]
  dsimp only
  rw [c2File_length, pageSize_eq]

theorem getPage_read {p : Pager} {num : Nat}
    (hlt : num < p.pages.length) (hslot : slotAt p.pages num = none)
    (hext : num < (p.file.length + (pageSize - 1)) / pageSize)
    (hcur : p.cursor + min pageSize (p.file.length - num * pageSize) ≤ p.file.length) :
    Pager.getPage p num =
      (Except.ok (readRange p.file p.cursor
          (min pageSize (p.file.length - num * pageSize)) ++
        List.replicate (pageSize - min pageSize (p.file.length - num * pageSize)) 0),
        { p with
          cursor := p.cursor + min pageSize (p.file.length - num * pageSize),
          pages := p.pages.set num (some (readRange p.file p.cursor
            (min pageSize (p.file.length - num * pageSize)) ++
            List.replicate (pageSize - min pageSize (p.file.length - num * pageSize)) 0)) }) := by
  simp only [Pager.getPage]
  rw [if_neg (Nat.not_le.mpr hlt), hslot]
  dsimp only
  rw [if_pos hext, if_pos hcur]


example : 1 < (Pager.new c2File).pages.length := by
  rw [c2File_pager_pages, List.length_replicate]; norm_num





theorem c2_read_at_cursor_not_offset :
    (Pager.getPage (Pager.new c2File) 1).1 =
      Except.ok (List.replicate 291 1 ++ List.replicate 3805 0) ∧
    readRange c2File (1 * 4096) 291 = List.replicate 291 2 ∧
    (List.replicate 291 1 ++ List.replicate 3805 0 : List Nat) ≠
      List.replicate 291 2 ++ List.replicate 3805 0 := by
  have hflen : (Pager.new c2File).file.length = 4387 := c2File_length
  have hcurz : (Pager.new c2File).cursor = 0 := rfl
  have hget := @getPage_read (Pager.new c2File) 1
    (by rw [c2File_pager_pages, List.length_replicate]; norm_num)
    (by rw [c2File_pager_pages]; exact slotAt_replicate _ _)
    (by rw [hflen, pageSize_eq]; norm_num)
    (by rw [hflen, hcurz, pageSize_eq]; norm_num)
  refine ⟨?_, ?_, ?_⟩
  · rw [hget]
    dsimp only
    rw [hflen, pageSize_eq]
    norm_num
    have hread : readRange (Pager.new c2File).file (Pager.new c2File).cursor 291 =
        List.replicate 291 1 := by
      have hc : (Pager.new c2File).cursor = 0 := rfl
      have hf : (Pager.new c2File).file = c2File := rfl
      rw [hc, hf, readRange, List.drop_zero, c2File]
      have ht : (List.replicate 4096 (1 : Nat) ++ List.replicate 291 2).take 291 =
          (List.replicate 4096 (1 : Nat)).take 291 :=
        List.take_append_of_le_length (by rw [List.length_replicate]; norm_num)
      rw [ht, List.take_replicate, Nat.min_eq_left (by norm_num)]
    rw [hread]
  · rw [readRange, c2File, Nat.one_mul]
    have hd : (List.replicate 4096 (1 : Nat) ++ List.replicate 291 2).drop 4096 =
        List.replicate 291 2 :=
      List.drop_left' (List.length_replicate 4096 1)
    rw [hd, List.take_replicate, Nat.min_self]
  · intro h
    rw [show (291 : Nat) = 290 + 1 from rfl, List.replicate_succ, List.replicate_succ,
      List.cons_append, List.cons_append] at h
    exact absurd (List.head_eq_of_cons_eq h) (by norm_num)

/-! ### Claim C3 -/

theorem tableNew_row_count (f : List Nat) : (Table.new f).row_count = f.length / rowSize := rfl
theorem tableNew_pages (f : List Nat) :
    (Table.new f).pager.pages =
      List.replicate ((f.length + (pageSize - 1)) / pageSize) none := rfl
theorem tableNew_file (f : List Nat) : (Table.new f).pager.file = f := rfl
theorem tableNew_cursor (f : List Nat) : (Table.new f).pager.cursor = 0 := rfl
def c3File : List Nat := List.replicate 57344 0
theorem c3File_length : c3File.length = 57344 := List.length_replicate 57344 0
theorem c3_table_pages : (Table.new c3File).pager.pages = List.replicate 14 none := by
  rw [tableNew_pages, c3File_length, pageSize_eq]
theorem c3_table_row_count : (Table.new c3File).row_count = 197 := by
  rw [tableNew_row_count, c3File_length, rowSize_eq]

theorem close_fresh_oob {f : List Nat}
    (heq : f.length / 291 / 14 = (f.length + 4095) / 4096)
    (hmod : f.length / 291 % 14 ≠ 0) :
    (Table.close (Table.new f)).1 = Except.error Err.outOfBounds := by
  have hrc : (Table.new f).row_count = f.length / 291 := by
    rw [tableNew_row_count, rowSize_eq]
  have hpg : (Table.new f).pager.pages =
      List.replicate ((f.length + 4095) / 4096) none := by
    rw [tableNew_pages, pageSize_eq]
  rw [Table.close]
  simp only [rowsPerPage_eq, rowSize_eq, hrc]
  have hloop := @closeLoop_none (Table.new f).pager (f.length / 291 / 14)
    (by rw [hpg, List.length_replicate]; omega)
    (fun j hj => by rw [hpg]; exact slotAt_replicate _ _)
  rw [hloop]
  dsimp only
  rw [if_pos (show 0 < f.length / 291 % 14 by omega)]
  rw [Pager.flushPage]
  rw [if_neg (show ¬ f.length / 291 / 14 < (Table.new f).pager.pages.length by
    rw [hpg, List.length_replicate]; omega)]

theorem c3_counterexample :
    (∀ j, slotAt (Table.new c3File).pager.pages j = none) ∧
    (Table.close (Table.new c3File)).1 = Except.error Err.outOfBounds := by
  constructor
  · intro j
    rw [c3_table_pages]
    exact slotAt_replicate _ _
  · exact close_fresh_oob (by rw [c3File_length]) (by rw [c3File_length]; norm_num)

/-- C3 (amended): flush_page(index, size) is a no-op returning Ok(()) for
every never-loaded page index inside the tracked page vector; and
Table.close on a freshly opened table, none of whose pages was ever loaded,
returns Ok provided the backing file is shorter than 57327 bytes (197 rows'
worth) — beyond that the trailing partial-page flush can index past the
tracked page vector and fault. -/
theorem c3_flush_noop_and_close_ok :
    (∀ (p : Pager) (index size : Nat), index < p.pages.length →
      slotAt p.pages index = none → p.flushPage index size = (Except.ok (), p)) ∧
    (∀ f : List Nat, f.length < 57327 →
      ∃ evs t', Table.close (Table.new f) = (Except.ok evs, t')) := by
  constructor
  · intro p index size hidx hslot
    rw [Pager.flushPage, if_pos hidx, hslot]
  · intro f hf
    have hrc : (Table.new f).row_count = f.length / 291 := by
      rw [tableNew_row_count, rowSize_eq]
    have hpg : (Table.new f).pager.pages =
        List.replicate ((f.length + 4095) / 4096) none := by
      rw [tableNew_pages, pageSize_eq]
    rw [Table.close]
    simp only [rowsPerPage_eq, rowSize_eq, hrc]
    have hloop := @closeLoop_none (Table.new f).pager (f.length / 291 / 14)
      (by rw [hpg, List.length_replicate]; omega)
      (fun j hj => by rw [hpg]; exact slotAt_replicate _ _)
    rw [hloop]
    dsimp only
    by_cases hmod : f.length / 291 % 14 = 0
    · rw [if_neg (show ¬ 0 < f.length / 291 % 14 by omega)]
      exact ⟨_, _, rfl⟩
    · rw [if_pos (show 0 < f.length / 291 % 14 by omega)]
      rw [Pager.flushPage,
        if_pos (show f.length / 291 / 14 < (Table.new f).pager.pages.length by
          rw [hpg, List.length_replicate]; omega)]
      rw [show slotAt (Table.new f).pager.pages (f.length / 291 / 14) = none by
        rw [hpg]; exact slotAt_replicate _ _]
      exact ⟨_, _, rfl⟩

/-- C3 witness: the amended theorem applied to a one-slot pager with an
unloaded slot, and to a fresh table over a 291-byte file. -/
theorem c3_flush_noop_and_close_ok_witness :
    ((⟨[], 0, [none]⟩ : Pager).flushPage 0 5 = (Except.ok (), (⟨[], 0, [none]⟩ : Pager))) ∧
    ((List.replicate 291 0 : List Nat).length < 57327 ∧
      ∃ evs t', Table.close (Table.new (List.replicate 291 0)) = (Except.ok evs, t')) :=
  ⟨c3_flush_noop_and_close_ok.1 ⟨[], 0, [none]⟩ 0 5 (by decide) (by decide),
   ⟨by decide, c3_flush_noop_and_close_ok.2 (List.replicate 291 0) (by decide)⟩⟩

/-! ### Claim C6 -/

/-- C6 (amended): for every table state whose loaded pages are full-sized
and whose full-page count row_count/14 does not exceed the tracked page
vector (strictly when a trailing partial page exists), close emits exactly
one full-size (4096-byte) flush for each loaded page among indices
0..row_count/14-1 in increasing order, then — exactly when row_count % 14
is nonzero — the flush of page row_count/14 at (row_count % 14) * 291
bytes, and finally the durable sync as the last event. -/
theorem c6_close_events (t : Table)
    (hwf : pagesWF t.pager.pages = true)
    (hle : t.row_count / 14 ≤ t.pager.pages.length)
    (hlt : t.row_count % 14 ≠ 0 → t.row_count / 14 < t.pager.pages.length) :
    ∃ t', Table.close t =
      (Except.ok ((((List.range (t.row_count / 14)).filter
            fun i => (slotAt t.pager.pages i).isSome).map
          fun i => Ev.flushEv i 4096) ++
        (if t.row_count % 14 ≠ 0 then
          [Ev.flushEv (t.row_count / 14) ((t.row_count % 14) * 291), Ev.syncEv]
         else [Ev.syncEv])), t') := by
  obtain ⟨p1, hloop, hpages⟩ := @closeLoop_wf t.pager (t.row_count / 14) hle hwf
  rw [pageSize_eq] at hloop
  rw [Table.close]
  simp only [rowsPerPage_eq, rowSize_eq]
  rw [hloop]
  dsimp only
  by_cases hmod : t.row_count % 14 = 0
  · rw [if_neg (show ¬ 0 < t.row_count % 14 by omega),
      if_neg (show ¬ t.row_count % 14 ≠ 0 by omega)]
    exact ⟨_, rfl⟩
  · obtain ⟨p2, hflush, hpages2⟩ := @flushPage_ok p1 (t.row_count / 14)
      (t.row_count % 14 * 291)
      (by rw [hpages]; exact hlt hmod)
      (by rw [hpages]; exact hwf)
      (by omega)
    rw [if_pos (show 0 < t.row_count % 14 by omega), hflush]
    dsimp only
    rw [if_pos hmod]
    exact ⟨_, rfl⟩

/-- A small well-formed table state: 15 rows, both pages loaded. -/
def c6State : Table :=
  ⟨15, ⟨[], 0, [some (List.replicate 4096 0), some (List.replicate 4096 0)]⟩⟩

/-- C6 witness: the close event trace of the 15-row two-page state. -/
theorem c6_close_events_witness :
    (pagesWF c6State.pager.pages = true ∧
      c6State.row_count / 14 ≤ c6State.pager.pages.length ∧
      (c6State.row_count % 14 ≠ 0 → c6State.row_count / 14 < c6State.pager.pages.length)) ∧
    ∃ t', Table.close c6State =
      (Except.ok ((((List.range (c6State.row_count / 14)).filter
            fun i => (slotAt c6State.pager.pages i).isSome).map
          fun i => Ev.flushEv i 4096) ++
        (if c6State.row_count % 14 ≠ 0 then
          [Ev.flushEv (c6State.row_count / 14) ((c6State.row_count % 14) * 291), Ev.syncEv]
         else [Ev.syncEv])), t') :=
  ⟨⟨by simp only [c6State, pagesWF, List.all_cons, List.all_nil, pageOk,
      List.length_replicate]; decide,
    by decide, by decide⟩,
    c6_close_events c6State
      (by simp only [c6State, pagesWF, List.all_cons, List.all_nil, pageOk,
        List.length_replicate]; decide)
      (by decide) (by decide)⟩

/-- C6 counterexample: a table state (row_count 198, fourteen tracked but
unloaded pages — the shape a large session's reopened artifact takes) on
which close does not flush-and-sync but faults: the trailing partial-page
flush indexes pages[14], out of range. -/
theorem c6_counterexample :
    (Table.close (⟨198, ⟨[], 0, List.replicate 14 none⟩⟩ : Table)).1 =
      Except.error Err.outOfBounds := by decide

/-! ### Claims C5 and C7: insert outcomes -/

theorem getPage_error_props {p : Pager} {num : Nat} {e : Err} {p1 : Pager}
    (h : Pager.getPage p num = (Except.error e, p1)) :
    ∀ j pg, slotAt p.pages j = some pg → slotAt p1.pages j = some pg := by
  intro j pg hj
  have hjlen : j < p.pages.length := by
    by_contra hc
    rw [slotAt_oob (by omega)] at hj
    cases hj
  simp only [Pager.getPage] at h
  by_cases hgrow : p.pages.length ≤ num
  · simp only [if_pos hgrow] at h
    split at h
    · simp at h
    · split at h
      · split at h
        · simp at h
        · simp only [Prod.mk.injEq, Except.error.injEq] at h
          obtain ⟨-, hp1⟩ := h
          rw [← hp1]
          dsimp only
          rw [slotAt_append_left hjlen]
          exact hj
      · simp at h
  · simp only [if_neg hgrow] at h
    split at h
    · simp at h
    · split at h
      · split at h
        · simp at h
        · simp only [Prod.mk.injEq, Except.error.injEq] at h
          obtain ⟨-, hp1⟩ := h
          rw [← hp1]
          exact hj
      · simp at h

theorem getPage_ok_props {p : Pager} {num : Nat} {page : List Nat} {p1 : Pager}
    (hwf : pagesWF p.pages = true)
    (h : Pager.getPage p num = (Except.ok page, p1)) :
    page.length = 4096 ∧ num < p1.pages.length ∧
    (∀ j pg, j ≠ num → slotAt p.pages j = some pg → slotAt p1.pages j = some pg) := by
  simp only [Pager.getPage] at h
  by_cases hgrow : p.pages.length ≤ num
  · simp only [if_pos hgrow] at h
    have hlen1 : (p.pages ++ List.replicate (num + 1 - p.pages.length) none).length =
        num + 1 := by
      rw [List.length_append, List.length_replicate]; omega
    split at h
    · -- cached slot was some: impossible beyond the original length, appended slots are none
      rename_i pg0 heq
      rcases slotAt_append_none with hnone | horig
      · rw [hnone] at heq; cases heq
      · rw [horig] at heq
        have : num < p.pages.length := by
          by_contra hc
          rw [slotAt_oob (by omega)] at heq
          cases heq
        omega
    · split at h
      · split at h
        · rename_i hext hcur
          simp only [Prod.mk.injEq, Except.ok.injEq] at h
          obtain ⟨hpg, hp1⟩ := h
          subst hpg
          refine ⟨?_, ?_, ?_⟩
          · rw [List.length_append, List.length_replicate, readRange_length (by omega),
              pageSize_eq]
            have : min pageSize (p.file.length - num * pageSize) ≤ pageSize :=
              Nat.min_le_left _ _
            rw [pageSize_eq] at this
            omega
          · rw [← hp1]
            dsimp only
            rw [List.length_set, hlen1]
            omega
          · intro j pg hne hsome
            have hjlen : j < p.pages.length := by
              by_contra hc
              rw [slotAt_oob (by omega)] at hsome
              cases hsome
            rw [← hp1]
            dsimp only
            rw [slotAt_set_ne (fun hx => hne hx.symm) _, slotAt_append_left hjlen]
            exact hsome
        · simp at h
      · simp only [Prod.mk.injEq, Except.ok.injEq] at h
        obtain ⟨hpg, hp1⟩ := h
        subst hpg
        refine ⟨List.length_replicate _ _, ?_, ?_⟩
        · rw [← hp1]
          dsimp only
          rw [List.length_set, hlen1]
          omega
        · intro j pg hne hsome
          have hjlen : j < p.pages.length := by
            by_contra hc
            rw [slotAt_oob (by omega)] at hsome
            cases hsome
          rw [← hp1]
          dsimp only
          rw [slotAt_set_ne (fun hx => hne hx.symm) _, slotAt_append_left hjlen]
          exact hsome
  · simp only [if_neg hgrow] at h
    have hnum : num < p.pages.length := by omega
    split at h
    · rename_i pg0 heq
      simp only [Prod.mk.injEq, Except.ok.injEq] at h
      obtain ⟨hpg, hp1⟩ := h
      subst hpg
      exact ⟨wf_slot hwf heq, by rw [← hp1]; exact hnum,
        fun j pg hne hsome => by rw [← hp1]; exact hsome⟩
    · split at h
      · split at h
        · rename_i hext hcur
          simp only [Prod.mk.injEq, Except.ok.injEq] at h
          obtain ⟨hpg, hp1⟩ := h
          subst hpg
          refine ⟨?_, ?_, ?_⟩
          · rw [List.length_append, List.length_replicate, readRange_length (by omega),
              pageSize_eq]
            have : min pageSize (p.file.length - num * pageSize) ≤ pageSize :=
              Nat.min_le_left _ _
            rw [pageSize_eq] at this
            omega
          · rw [← hp1]
            dsimp only
            rw [List.length_set]
            exact hnum
          · intro j pg hne hsome
            rw [← hp1]
            dsimp only
            rw [slotAt_set_ne (fun hx => hne hx.symm) _]
            exact hsome
        · simp at h
      · simp only [Prod.mk.injEq, Except.ok.injEq] at h
        obtain ⟨hpg, hp1⟩ := h
        subst hpg
        refine ⟨List.length_replicate _ _, ?_, ?_⟩
        · rw [← hp1]
          dsimp only
          rw [List.length_set]
          exact hnum
        · intro j pg hne hsome
          rw [← hp1]
          dsimp only
          rw [slotAt_set_ne (fun hx => hne hx.symm) _]
          exact hsome

theorem idSize_eq : idSize = 4 := rfl

theorem usernameSize_eq : usernameSize = 32 := rfl

theorem emailSize_eq : emailSize = 255 := rfl

theorem readRange_take_left {l : List Nat} {off m L : Nat} (h : m ≤ L) :
    (readRange l off L).take m = readRange l off m := by
  unfold readRange
  rw [List.take_take, Nat.min_eq_left h]

theorem serialize_components {r : Row} (hv : validRow r) :
    (serializeRow r).take 4 = toLe4 r.id ∧
    ((serializeRow r).drop 4).take 32 = r.username ∧
    ((serializeRow r).drop 36).take 255 = r.email := by
  obtain ⟨-, hu, he⟩ := hv
  have hu' : r.username.length = 32 := hu
  have he' : r.email.length = 255 := he
  unfold serializeRow
  rw [List.append_assoc]
  refine ⟨?_, ?_, ?_⟩
  · exact List.take_left' (length_toLe4 r.id)
  · rw [List.drop_left' (length_toLe4 r.id)]
    exact List.take_left' hu'
  · rw [show (36 : Nat) = (toLe4 r.id).length + 32 by rw [length_toLe4], List.drop_append,
      List.drop_left' hu']
    rw [← he', List.take_length]

theorem insert_ok_shape {t : Table} {r : Row} {page : List Nat} {p1 : Pager}
    (hv : validRow r) (hoff : (t.row_count % 14) * 291 ≤ page.length)
    (hg : Pager.getPage t.pager (t.row_count / 14) = (Except.ok page, p1)) :
    t.insert r = (Except.ok (), Table.mk (t.row_count + 1)
      (Pager.mk p1.file p1.cursor (p1.pages.set (t.row_count / 14)
        (some (writeBytes page ((t.row_count % 14) * 291) (serializeRow r)))))) := by
  have hwr := @insert_writes page ((t.row_count % 14) * 291) r hv hoff
  simp only [Table.insert, rowsPerPage_eq, rowSize_eq]
  rw [hg]
  dsimp only
  rw [hwr]

theorem insert_error_shape {t : Table} {r : Row} {e : Err} {p1 : Pager}
    (hg : Pager.getPage t.pager (t.row_count / 14) = (Except.error e, p1)) :
    t.insert r = (Except.error e, { t with pager := p1 }) := by
  simp only [Table.insert, rowsPerPage_eq, rowSize_eq]
  rw [hg]

/-- C7: for a well-formed table state and a valid row, an insert either
writes the row's full 291 encoded bytes into the target page buffer and
increments row_count by one, or returns the error from get_page with
row_count unchanged and every loaded page buffer unchanged; there is no
intermediate outcome. -/
theorem c7_insert_all_or_nothing (t : Table) (r : Row)
    (hwf : pagesWF t.pager.pages = true) (hv : validRow r) :
    (∃ t' page', t.insert r = (Except.ok (), t') ∧
      t'.row_count = t.row_count + 1 ∧
      slotAt t'.pager.pages (t.row_count / 14) = some page' ∧
      readRange page' ((t.row_count % 14) * 291) 291 = serializeRow r ∧
      (∀ j pg, j ≠ t.row_count / 14 → slotAt t.pager.pages j = some pg →
        slotAt t'.pager.pages j = some pg)) ∨
    (∃ e t', t.insert r = (Except.error e, t') ∧
      t'.row_count = t.row_count ∧
      (∀ j pg, slotAt t.pager.pages j = some pg → slotAt t'.pager.pages j = some pg)) := by
  rcases hg : Pager.getPage t.pager (t.row_count / 14) with ⟨res, p1⟩
  cases res with
  | ok page =>
    obtain ⟨hplen, hnum, hpres⟩ := getPage_ok_props hwf hg
    have hser := length_serializeRow hv
    have hoff : (t.row_count % 14) * 291 ≤ page.length := by rw [hplen]; omega
    left
    refine ⟨_, writeBytes page ((t.row_count % 14) * 291) (serializeRow r),
      insert_ok_shape hv hoff hg, rfl, ?_, ?_, ?_⟩
    · exact slotAt_set_self hnum _
    · have hself := @readRange_writeBytes_self page (serializeRow r)
        ((t.row_count % 14) * 291) (by omega)
      rw [hser] at hself
      exact hself
    · intro j pg hne hsome
      dsimp only
      rw [slotAt_set_ne (fun hx => hne hx.symm) _]
      exact hpres j pg hne hsome
  | error e =>
    right
    exact ⟨e, _, insert_error_shape hg, rfl,
      fun j pg hsome => getPage_error_props hg j pg hsome⟩

/-- C7 witness: the dichotomy applied to the empty fresh table and the
sample valid row (here the insert succeeds). -/
theorem c7_insert_all_or_nothing_witness :
    (pagesWF (Table.new []).pager.pages = true ∧ validRow rowA) ∧
    ((∃ t' page', (Table.new []).insert rowA = (Except.ok (), t') ∧
      t'.row_count = (Table.new []).row_count + 1 ∧
      slotAt t'.pager.pages ((Table.new []).row_count / 14) = some page' ∧
      readRange page' (((Table.new []).row_count % 14) * 291) 291 = serializeRow rowA ∧
      (∀ j pg, j ≠ (Table.new []).row_count / 14 →
        slotAt (Table.new []).pager.pages j = some pg →
        slotAt t'.pager.pages j = some pg)) ∨
    (∃ e t', (Table.new []).insert rowA = (Except.error e, t') ∧
      t'.row_count = (Table.new []).row_count ∧
      (∀ j pg, slotAt (Table.new []).pager.pages j = some pg →
        slotAt t'.pager.pages j = some pg))) :=
  ⟨⟨rfl, by decide⟩, c7_insert_all_or_nothing (Table.new []) rowA rfl (by decide)⟩

/-- C5: inserting a valid row into a well-formed table state with row count
n and then deserializing the row at index n yields a row whose id, username
buffer and email buffer all equal those of the inserted row exactly. -/
theorem c5_insert_deserialize_roundtrip (t : Table) (r : Row) (t' : Table)
    (hwf : pagesWF t.pager.pages = true) (hv : validRow r)
    (hok : t.insert r = (Except.ok (), t')) :
    (t'.deserializeRow t.row_count).1 = Except.ok r := by
  rcases hg : Pager.getPage t.pager (t.row_count / 14) with ⟨res, p1⟩
  cases res with
  | error e =>
    rw [insert_error_shape hg] at hok
    simp at hok
  | ok page =>
    obtain ⟨hplen, hnum, -⟩ := getPage_ok_props hwf hg
    have hser := length_serializeRow hv
    have hid : r.id < 4294967296 := hv.1
    have hoff : (t.row_count % 14) * 291 ≤ page.length := by rw [hplen]; omega
    rw [insert_ok_shape hv hoff hg] at hok
    simp only [Prod.mk.injEq, true_and] at hok
    set pg3 := writeBytes page ((t.row_count % 14) * 291) (serializeRow r) with hpg3
    rw [← hok]
    have hslot : slotAt ((p1.pages.set (t.row_count / 14) (some pg3))) (t.row_count / 14) =
        some pg3 := slotAt_set_self hnum _
    have hcache := @getPage_cached
      { p1 with pages := p1.pages.set (t.row_count / 14) (some pg3) } (t.row_count / 14) pg3
      (by dsimp only; rw [List.length_set]; exact hnum) hslot
    rw [Table.deserializeRow]
    simp only [rowsPerPage_eq, rowSize_eq, idSize_eq, usernameSize_eq, emailSize_eq]
    rw [hcache]
    dsimp only
    have hrr : readRange pg3 ((t.row_count % 14) * 291) 291 = serializeRow r := by
      have hself := @readRange_writeBytes_self page (serializeRow r)
        ((t.row_count % 14) * 291) (by omega)
      rw [hser] at hself
      exact hself
    obtain ⟨hc1, hc2, hc3⟩ := serialize_components hv
    have h1 : readRange pg3 ((t.row_count % 14) * 291) 4 = toLe4 r.id := by
      rw [← readRange_take_left (show (4 : Nat) ≤ 291 by norm_num), hrr, hc1]
    have h2 : readRange pg3 ((t.row_count % 14) * 291 + 4) 32 = r.username := by
      rw [@readRange_sub pg3 ((t.row_count % 14) * 291) 291 4 32 (by norm_num), hrr, hc2]
    have h3 : readRange pg3 ((t.row_count % 14) * 291 + 4 + 32) 255 = r.email := by
      rw [Nat.add_assoc]
      rw [@readRange_sub pg3 ((t.row_count % 14) * 291) 291 (4 + 32) 255 (by norm_num), hrr]
      exact hc3
    rw [h1, h2, h3, fromLe4_toLe4 hid]

/-- C5 witness: insert the sample row into the fresh empty table and read
it back at index 0. -/
theorem c5_insert_deserialize_roundtrip_witness :
    (pagesWF (Table.new []).pager.pages = true ∧ validRow rowA ∧
      (Table.new []).insert rowA = (Except.ok (), ((Table.new []).insert rowA).2)) ∧
    ((((Table.new []).insert rowA).2.deserializeRow (Table.new []).row_count).1 =
      Except.ok rowA) := by
  have hg := @getPage_grow_empty (Pager.new []) 0 rfl rfl
  have hins := @insert_ok_shape (Table.new []) rowA (List.replicate 4096 0) _
    (by decide) (by rw [List.length_replicate]; omega) hg
  have h1 : ((Table.new []).insert rowA).1 = Except.ok () := by rw [hins]
  exact ⟨⟨rfl, by decide, Prod.ext h1 rfl⟩,
    c5_insert_deserialize_roundtrip (Table.new []) rowA _ rfl (by decide) (Prod.ext h1 rfl)⟩

/-! ### Claims C8, C9, C10: parsing and display -/

theorem splitOnZero_head : ∀ l : List Nat,
    (splitOnZero l).head? = some (l.takeWhile fun b => b != 0)
  | [] => rfl
  | b :: rest => by
    rw [splitOnZero]
    by_cases hb : b == 0
    · rw [if_pos hb]
      simp only [List.head?_cons, List.takeWhile_cons, bne, hb, Bool.not_true,
        Bool.false_eq_true, if_false]
    · rw [if_neg hb]
      have ih := splitOnZero_head rest
      cases hsp : splitOnZero rest with
      | nil => rw [hsp] at ih; cases ih
      | cons s ss =>
        rw [hsp] at ih
        simp only [List.head?_cons, Option.some_inj] at ih
        simp only [List.head?_cons, List.takeWhile_cons, bne, hb, Bool.not_false, if_true,
          Option.some_inj, ih]

theorem bytesToStr_eq (bs : List Nat) :
    bytesToStr bs =
      if validUtf8 (bs.takeWhile fun b => b != 0) = true
        then bs.takeWhile (fun b => b != 0) else invalidUtf8Msg := by
  simp only [bytesToStr]
  rw [splitOnZero_head]

/-- C9: the display form of every stored row renders the username and the
email as the byte segment up to the first zero byte when that segment is
valid UTF-8, and as the literal placeholder bytes of "<Invalid utf-8>"
otherwise; rendering is total, so a select scan never fails on invalid
stored text. -/
theorem c9_display_prefix_or_placeholder (r : Row) :
    displayRow r = [40] ++ natDigits r.id ++ [32] ++
      (if validUtf8 (r.username.takeWhile fun b => b != 0) = true
        then r.username.takeWhile (fun b => b != 0) else invalidUtf8Msg) ++ [32] ++
      (if validUtf8 (r.email.takeWhile fun b => b != 0) = true
        then r.email.takeWhile (fun b => b != 0) else invalidUtf8Msg) ++ [41] := by
  rw [displayRow, bytesToStr_eq, bytesToStr_eq]

/-- C8: Row::from_str accepts a username of exactly 32 bytes and an email
of exactly 255 bytes; with a parseable id it reports StringTooLong exactly
when the username exceeds 32 bytes or (with a username in bounds) the email
exceeds 255 bytes; and it reports SyntaxError when any of the three fields
is missing or the id does not parse as a u32. -/
theorem c8_parse_boundaries :
    (∀ s tid tu te rest v, splitWs s = tid :: tu :: te :: rest →
      parseU32 tid = some v → tu.length = 32 → te.length = 255 →
      Row.fromStr s = Except.ok (mkRow v tu te)) ∧
    (∀ s tid tu rest v, splitWs s = tid :: tu :: rest → parseU32 tid = some v →
      32 < tu.length → Row.fromStr s = Except.error PrepareResult.stringTooLong) ∧
    (∀ s tid tu te rest v, splitWs s = tid :: tu :: te :: rest →
      parseU32 tid = some v → tu.length ≤ 32 → 255 < te.length →
      Row.fromStr s = Except.error PrepareResult.stringTooLong) ∧
    (∀ s, Row.fromStr s = Except.error PrepareResult.stringTooLong →
      ∃ tid tu rest, splitWs s = tid :: tu :: rest ∧
        (32 < tu.length ∨
          ∃ te rest2, rest = te :: rest2 ∧ tu.length ≤ 32 ∧ 255 < te.length)) ∧
    (∀ s, splitWs s = [] → Row.fromStr s = Except.error PrepareResult.syntaxError) ∧
    (∀ s tid rest, splitWs s = tid :: rest → parseU32 tid = none →
      Row.fromStr s = Except.error PrepareResult.syntaxError) ∧
    (∀ s tid v, splitWs s = [tid] → parseU32 tid = some v →
      Row.fromStr s = Except.error PrepareResult.syntaxError) ∧
    (∀ s tid tu v, splitWs s = [tid, tu] → parseU32 tid = some v → tu.length ≤ 32 →
      Row.fromStr s = Except.error PrepareResult.syntaxError) := by
  refine ⟨?_, ?_, ?_, ?_, ?_, ?_, ?_, ?_⟩
  · intro s tid tu te rest v hs hp hu he
    simp only [Row.fromStr]
    rw [hs]
    dsimp only
    rw [hp]
    try dsimp only
    rw [if_neg (show ¬ usernameSize < tu.length by rw [usernameSize_eq]; omega)]
    try dsimp only
    rw [if_neg (show ¬ emailSize < te.length by rw [emailSize_eq]; omega)]
  · intro s tid tu rest v hs hp hu
    simp only [Row.fromStr]
    rw [hs]
    dsimp only
    rw [hp]
    try dsimp only
    rw [if_pos (show usernameSize < tu.length by rw [usernameSize_eq]; omega)]
  · intro s tid tu te rest v hs hp hu he
    simp only [Row.fromStr]
    rw [hs]
    dsimp only
    rw [hp]
    try dsimp only
    rw [if_neg (show ¬ usernameSize < tu.length by rw [usernameSize_eq]; omega)]
    try dsimp only
    rw [if_pos (show emailSize < te.length by rw [emailSize_eq]; omega)]
  · intro s h
    simp only [Row.fromStr] at h
    cases hs : splitWs s with
    | nil => rw [hs] at h; cases h
    | cons tid rest1 =>
      rw [hs] at h
      dsimp only at h
      cases hp : parseU32 tid with
      | none => rw [hp] at h; cases h
      | some v =>
        rw [hp] at h
        dsimp only at h
        cases rest1 with
        | nil => cases h
        | cons tu rest2 =>
          dsimp only at h
          by_cases h32 : usernameSize < tu.length
          · exact ⟨tid, tu, rest2, rfl, Or.inl (by rw [← usernameSize_eq]; exact h32)⟩
          · rw [if_neg h32] at h
            cases rest2 with
            | nil => cases h
            | cons te rest3 =>
              dsimp only at h
              by_cases h255 : emailSize < te.length
              · refine ⟨tid, tu, te :: rest3, rfl, Or.inr ⟨te, rest3, rfl, ?_, ?_⟩⟩
                · rw [← usernameSize_eq]; omega
                · rw [← emailSize_eq]; exact h255
              · rw [if_neg h255] at h
                cases h
  · intro s hs
    simp only [Row.fromStr]
    rw [hs]
  · intro s tid rest hs hp
    simp only [Row.fromStr]
    rw [hs]
    dsimp only
    rw [hp]
  · intro s tid v hs hp
    simp only [Row.fromStr]
    rw [hs]
    dsimp only
    rw [hp]
  · intro s tid tu v hs hp hu
    simp only [Row.fromStr]
    rw [hs]
    dsimp only
    rw [hp]
    try dsimp only
    rw [if_neg (show ¬ usernameSize < tu.length by rw [usernameSize_eq]; omega)]

/-- Byte strings for the parser witnesses: '1' = 49, 'a' = 97, 'b' = 98,
'u' = 117, 'e' = 101, 'x' = 120, 'y' = 121, space = 32. -/
def tok32 : List Nat := List.replicate 32 97

def tok33 : List Nat := List.replicate 33 97

def tok255 : List Nat := List.replicate 255 98

def tok256 : List Nat := List.replicate 256 98

/-- C8 witness: the boundary behaviour at concrete inputs - a 32-byte
username with a 255-byte email is accepted; a 33-byte username and a
256-byte email are each StringTooLong; a lone id and a non-numeric id are
SyntaxError. -/
theorem c8_parse_boundaries_witness :
    Row.fromStr ([49, 32] ++ tok32 ++ [32] ++ tok255) = Except.ok (mkRow 1 tok32 tok255) ∧
    Row.fromStr ([49, 32] ++ tok33 ++ [32, 101]) = Except.error PrepareResult.stringTooLong ∧
    Row.fromStr ([49, 32, 117, 32] ++ tok256) = Except.error PrepareResult.stringTooLong ∧
    Row.fromStr [49] = Except.error PrepareResult.syntaxError ∧
    Row.fromStr [120, 32, 117, 32, 101] = Except.error PrepareResult.syntaxError :=
  ⟨c8_parse_boundaries.1 ([49, 32] ++ tok32 ++ [32] ++ tok255) [49] tok32 tok255 [] 1
      (by decide) (by decide) (by decide) (by decide),
   c8_parse_boundaries.2.1 ([49, 32] ++ tok33 ++ [32, 101]) [49] tok33 [[101]] 1
      (by decide) (by decide) (by decide),
   c8_parse_boundaries.2.2.1 ([49, 32, 117, 32] ++ tok256) [49] [117] tok256 [] 1
      (by decide) (by decide) (by decide) (by decide),
   c8_parse_boundaries.2.2.2.2.2.2.1 [49] [49] 1 (by decide) (by decide),
   c8_parse_boundaries.2.2.2.2.2.1 [120, 32, 117, 32, 101] [120] [[117], [101]]
      (by decide) (by decide)⟩

/-- C10: tokens after the third whitespace-delimited field are silently
discarded - whenever the first three fields are valid, parse succeeds and
builds the row from those three fields alone, whatever follows them. -/
theorem c10_extra_tokens_ignored (s tid tu te : List Nat) (rest : List (List Nat)) (v : Nat)
    (hs : splitWs s = tid :: tu :: te :: rest)
    (hp : parseU32 tid = some v) (hu : tu.length ≤ 32) (he : te.length ≤ 255) :
    Row.fromStr s = Except.ok (mkRow v tu te) := by
  simp only [Row.fromStr]
  rw [hs]
  dsimp only
  rw [hp]
  try dsimp only
  rw [if_neg (show ¬ usernameSize < tu.length by rw [usernameSize_eq]; omega)]
  try dsimp only
  rw [if_neg (show ¬ emailSize < te.length by rw [emailSize_eq]; omega)]

/-- C10 witness: parsing "1 u e x y" succeeds and yields the row built
from "1", "u", "e", discarding the trailing "x y". -/
theorem c10_extra_tokens_ignored_witness :
    Row.fromStr [49, 32, 117, 32, 101, 32, 120, 32, 121] =
      Except.ok (mkRow 1 [117] [101]) :=
  c10_extra_tokens_ignored [49, 32, 117, 32, 101, 32, 120, 32, 121] [49] [117] [101]
    [[120], [121]] 1 (by decide) (by decide) (by decide) (by decide)

/-! ### Claim C4: select in-session and across close/reopen -/

theorem decode_components {pg : List Nat} {off : Nat} {r : Row}
    (hread : readRange pg off 291 = serializeRow r) (hv : validRow r) :
    fromLe4 (readRange pg off 4) = r.id ∧
    readRange pg (off + 4) 32 = r.username ∧
    readRange pg (off + 4 + 32) 255 = r.email := by
  obtain ⟨hc1, hc2, hc3⟩ := serialize_components hv
  refine ⟨?_, ?_, ?_⟩
  · rw [← readRange_take_left (show (4 : Nat) ≤ 291 by norm_num), hread, hc1,
      fromLe4_toLe4 hv.1]
  · rw [@readRange_sub pg off 291 4 32 (by norm_num), hread, hc2]
  · rw [Nat.add_assoc, @readRange_sub pg off 291 (4 + 32) 255 (by norm_num), hread]
    exact hc3

theorem deserialize_cached {t : Table} {i : Nat} {pg : List Nat} {r : Row}
    (hlen : i / 14 < t.pager.pages.length)
    (hslot : slotAt t.pager.pages (i / 14) = some pg)
    (hread : readRange pg ((i % 14) * 291) 291 = serializeRow r)
    (hv : validRow r) :
    t.deserializeRow i = (Except.ok r, t) := by
  have hcache := getPage_cached hlen hslot
  rw [Table.deserializeRow]
  simp only [rowsPerPage_eq, rowSize_eq, idSize_eq, usernameSize_eq, emailSize_eq]
  rw [hcache]
  dsimp only
  obtain ⟨h1, h2, h3⟩ := decode_components hread hv
  rw [h1, h2, h3]

theorem getD_mem {rows : List Row} {i : Nat} (hi : i < rows.length) :
    rows.getD i defaultRow ∈ rows := by
  rw [List.getD_eq_getElem?_getD, List.getElem?_eq_getElem hi]
  exact List.getElem_mem hi

theorem selectFrom_ok (P : Nat → Table → Prop) (lineOf : Nat → List Nat) :
    ∀ (n s : Nat) (t : Table), P s t →
    (∀ i t1, s ≤ i → i < s + n → P i t1 →
      ∃ r t2, t1.deserializeRow i = (Except.ok r, t2) ∧
        displayRow r ++ [10] = lineOf i ∧ P (i + 1) t2) →
    ∃ t', Table.selectFrom t s n = (Except.ok ((List.range' s n).map lineOf), t') ∧
      P (s + n) t' := by
  intro n
  induction n with
  | zero => exact fun s t hP _ => ⟨t, rfl, by simpa using hP⟩
  | succ m ih =>
    intro s t hP hstep
    obtain ⟨r, t2, hdes, hline, hP2⟩ := hstep s t (Nat.le_refl s) (by omega) hP
    obtain ⟨t', hsel, hP'⟩ := ih (s + 1) t2 hP2
      (fun i t1 hi1 hi2 hp => hstep i t1 (by omega) (by omega) hp)
    refine ⟨t', ?_, by rw [show s + (m + 1) = s + 1 + m by omega]; exact hP'⟩
    rw [Table.selectFrom, hdes]
    dsimp only
    rw [hsel]
    dsimp only
    rw [List.range'_succ, List.map_cons, hline]

theorem select_fs {rows : List Row} {t : Table} (hfs : FS rows t)
    (hv : ∀ r ∈ rows, validRow r) :
    t.select = (Except.ok ((List.range' 0 rows.length).map
      (fun i => displayRow (rows.getD i defaultRow) ++ [10])), t) := by
  obtain ⟨t', hsel, hP⟩ := selectFrom_ok (fun _ t1 => t1 = t)
    (fun i => displayRow (rows.getD i defaultRow) ++ [10]) rows.length 0 t rfl
    (fun i t1 hi1 hi2 hp => by
      rw [hp]
      obtain ⟨pg, hslot, hread⟩ := hfs.content i (by omega)
      have hval := hv _ (getD_mem (show i < rows.length by omega))
      have hlen : i / 14 < t.pager.pages.length := by
        rw [hfs.plen]
        exact div14_lt_pl_of_lt (by omega)
      exact ⟨rows.getD i defaultRow, t, deserialize_cached hlen hslot hread hval, rfl, rfl⟩)
  rw [Table.select, hfs.rc]
  rw [hsel, hP]

theorem readRange_readRange {l : List Nat} {o L o2 m : Nat} (h : o2 + m ≤ L) :
    readRange (readRange l o L) o2 m = readRange l (o + o2) m := by
  unfold readRange
  rw [List.drop_take, List.drop_drop, List.take_take, Nat.min_eq_left (by omega)]

theorem reopen_select_15 {F : List Nat} {rows : List Row}
    (hlen : F.length = 4387) (hlen15 : rows.length = 15)
    (hv : ∀ r ∈ rows, validRow r)
    (hrow : ∀ i, i < 15 → readRange F ((i / 14) * 4096 + (i % 14) * 291) 291 =
      serializeRow (rows.getD i defaultRow)) :
    ∃ t', (Table.new F).select =
      (Except.ok ((List.range' 0 15).map
        (fun i => displayRow (rows.getD i defaultRow) ++ [10])), t') := by
  have hrc : (Table.new F).row_count = 15 := by rw [tableNew_row_count, hlen, rowSize_eq]
  have hpg : (Table.new F).pager.pages = List.replicate 2 none := by
    rw [tableNew_pages, hlen, pageSize_eq]
  have hfile : (Table.new F).pager.file = F := tableNew_file F
  have hcur : (Table.new F).pager.cursor = 0 := tableNew_cursor F
  -- first page load
  have hget0 := @getPage_read (Table.new F).pager 0
    (by rw [hpg, List.length_replicate]; norm_num)
    (by rw [hpg]; exact slotAt_replicate _ _)
    (by rw [hfile, hlen, pageSize_eq]; norm_num)
    (by rw [hfile, hcur, hlen, pageSize_eq]; norm_num)
  rw [hfile, hcur, hpg, pageSize_eq] at hget0
  rw [hlen] at hget0
  rw [show (4387 : Nat) - 0 * 4096 = 4387 from rfl,
    show min (4096 : Nat) 4387 = 4096 from rfl, Nat.sub_self, List.replicate_zero,
    List.append_nil, Nat.zero_add] at hget0
  set P0 := readRange F 0 4096 with hP0
  set T2A : Table := Table.mk (Table.new F).row_count
    (Pager.mk F 4096 ((List.replicate 2 none).set 0 (some P0))) with hT2A
  -- contents of page 0
  have hreadP0 : ∀ i, i ≤ 13 → readRange P0 (i % 14 * 291) 291 =
      serializeRow (rows.getD i defaultRow) := by
    intro i hi
    rw [hP0, @readRange_readRange F 0 4096 (i % 14 * 291) 291 (by omega)]
    have h := hrow i (by omega)
    rw [Nat.div_eq_of_lt (show i < 14 by omega)] at h
    simpa using h
  have hval : ∀ i, i < 15 → validRow (rows.getD i defaultRow) := fun i hi =>
    hv _ (getD_mem (by omega))
  -- deserializing row 0 from the fresh table
  have hdes0 : (Table.new F).deserializeRow 0 = (Except.ok (rows.getD 0 defaultRow), T2A) := by
    rw [Table.deserializeRow]
    simp only [rowsPerPage_eq, rowSize_eq, idSize_eq, usernameSize_eq, emailSize_eq]
    rw [show (0 : Nat) / 14 = 0 from rfl, show (0 : Nat) % 14 * 291 = 0 from rfl]
    rw [hget0]
    dsimp only
    obtain ⟨h1, h2, h3⟩ := decode_components
      (show readRange P0 0 291 = serializeRow (rows.getD 0 defaultRow) by
        have := hreadP0 0 (by omega)
        rwa [show (0 : Nat) % 14 * 291 = 0 from rfl] at this)
      (hval 0 (by omega))
    rw [h1, h2, h3]
  -- deserializing rows 1..13 from the cached page
  have hdes1 : ∀ i, 1 ≤ i → i ≤ 13 →
      T2A.deserializeRow i = (Except.ok (rows.getD i defaultRow), T2A) := by
    intro i h1 h13
    apply deserialize_cached
    · rw [show i / 14 = 0 by omega, hT2A]
      dsimp only
      rw [List.length_set, List.length_replicate]
      norm_num
    · rw [show i / 14 = 0 by omega, hT2A]
      dsimp only
      exact slotAt_set_self (by rw [List.length_replicate]; norm_num) _
    · exact hreadP0 i (by omega)
    · exact hval i (by omega)
  -- second page load, row 14
  have hget1 := @getPage_read T2A.pager 1
    (by rw [hT2A]; dsimp only; rw [List.length_set, List.length_replicate]; norm_num)
    (by rw [hT2A]; dsimp only
        rw [slotAt_set_ne (by norm_num) _]
        exact slotAt_replicate _ _)
    (by rw [hT2A]; dsimp only; rw [hlen, pageSize_eq]; norm_num)
    (by rw [hT2A]; dsimp only; rw [hlen, pageSize_eq]; norm_num)
  rw [hT2A] at hget1
  dsimp only at hget1
  rw [hlen, pageSize_eq] at hget1
  rw [show (4387 : Nat) - 1 * 4096 = 291 from rfl,
    show min (4096 : Nat) 291 = 291 from rfl,
    show (4096 : Nat) - 291 = 3805 from rfl,
    show (4096 : Nat) + 291 = 4387 from rfl] at hget1
  set P1 := readRange F 4096 291 ++ List.replicate 3805 0 with hP1
  set T2B : Table := Table.mk (Table.new F).row_count
    (Pager.mk F 4387 (((List.replicate 2 none).set 0 (some P0)).set 1 (some P1)))
    with hT2B
  have hreadP1 : readRange P1 0 291 = serializeRow (rows.getD 14 defaultRow) := by
    have hX : (readRange F 4096 291).length = 291 := readRange_length (by omega)
    rw [hP1, readRange, List.drop_zero, List.take_left' hX]
    have h := hrow 14 (by omega)
    rwa [show (14 : Nat) / 14 * 4096 + 14 % 14 * 291 = 4096 from rfl] at h
  have hdes14 : T2A.deserializeRow 14 = (Except.ok (rows.getD 14 defaultRow), T2B) := by
    rw [Table.deserializeRow]
    simp only [rowsPerPage_eq, rowSize_eq, idSize_eq, usernameSize_eq, emailSize_eq]
    rw [show (14 : Nat) / 14 = 1 from rfl, show (14 : Nat) % 14 * 291 = 0 from rfl]
    rw [hget1]
    dsimp only
    obtain ⟨h1, h2, h3⟩ := decode_components hreadP1 (hval 14 (by omega))
    rw [h1, h2, h3]
  -- run the scan
  obtain ⟨t', hsel, -⟩ := selectFrom_ok
    (fun i t1 => (i = 0 ∧ t1 = Table.new F) ∨ (1 ≤ i ∧ i ≤ 14 ∧ t1 = T2A) ∨
      (15 ≤ i ∧ t1 = T2B))
    (fun i => displayRow (rows.getD i defaultRow) ++ [10]) 15 0 (Table.new F)
    (Or.inl ⟨rfl, rfl⟩)
    (by
      intro i t1 hi0 hi15 hP
      rcases hP with ⟨hi, ht⟩ | ⟨hi1, hi14, ht⟩ | ⟨hi15b, ht⟩
      · subst hi
        rw [ht]
        exact ⟨rows.getD 0 defaultRow, T2A, hdes0, rfl, Or.inr (Or.inl ⟨by omega, by omega, rfl⟩)⟩
      · rw [ht]
        rcases Nat.lt_or_ge i 14 with hi13 | hi14b
        · exact ⟨rows.getD i defaultRow, T2A, hdes1 i hi1 (by omega), rfl,
            Or.inr (Or.inl ⟨by omega, by omega, rfl⟩)⟩
        · have hi14c : i = 14 := by omega
          subst hi14c
          exact ⟨rows.getD 14 defaultRow, T2B, hdes14, rfl, Or.inr (Or.inr ⟨by omega, rfl⟩)⟩
      · omega)
  refine ⟨t', ?_⟩
  rw [Table.select, hrc]
  exact hsel

/-- C4: Inserting 15 rows (one more than the 14-row page capacity) into a fresh
table allocates a second page; `select` lists all 15 rows in insertion order,
`close` succeeds, and reopening the produced file and selecting again recovers
all 15 rows identically. -/
theorem c4_page_boundary (rows : List Row) (hlen15 : rows.length = 15)
    (hv : ∀ r ∈ rows, validRow r) :
    ∃ t evs tc t2,
      (Table.new []).insertAll rows = (Except.ok (), t) ∧
      t.pager.pages.length = 2 ∧
      t.select = (Except.ok ((List.range' 0 15).map
        (fun i => displayRow (rows.getD i defaultRow) ++ [10])), t) ∧
      Table.close t = (Except.ok evs, tc) ∧
      (Table.new tc.pager.file).select =
        (Except.ok ((List.range' 0 15).map
          (fun i => displayRow (rows.getD i defaultRow) ++ [10])), t2) := by
  obtain ⟨t, tc, evs, hall, hfs, hclose, hrc, hpg, hfile, hflen, hrows⟩ := session_closed hv
  have hsel := select_fs hfs hv
  rw [hlen15] at hsel
  have hplen : t.pager.pages.length = 2 := by
    have h := hfs.plen
    rw [hlen15] at h
    norm_num [pl] at h
    exact h
  have hflen' : tc.pager.file.length = 4387 := by
    rw [hflen, hlen15]
  have hrow' : ∀ i, i < 15 → readRange tc.pager.file ((i / 14) * 4096 + (i % 14) * 291) 291 =
      serializeRow (rows.getD i defaultRow) := fun i hi => hrows i (by omega)
  obtain ⟨t2, hre⟩ := reopen_select_15 hflen' hlen15 hv hrow'
  exact ⟨t, evs, tc, t2, hall, hplen, hsel, hclose, hre⟩

/-- C4 witness: the page-boundary theorem applied to 15 copies of the sample
row. -/
theorem c4_page_boundary_witness :
    ((List.replicate 15 rowA).length = 15 ∧ ∀ r ∈ List.replicate 15 rowA, validRow r) ∧
    ∃ t evs tc t2,
      (Table.new []).insertAll (List.replicate 15 rowA) = (Except.ok (), t) ∧
      t.pager.pages.length = 2 ∧
      t.select = (Except.ok ((List.range' 0 15).map
        (fun i => displayRow ((List.replicate 15 rowA).getD i defaultRow) ++ [10])), t) ∧
      Table.close t = (Except.ok evs, tc) ∧
      (Table.new tc.pager.file).select =
        (Except.ok ((List.range' 0 15).map
          (fun i => displayRow ((List.replicate 15 rowA).getD i defaultRow) ++ [10])), t2) :=
  ⟨⟨by decide, by decide⟩,
   c4_page_boundary (List.replicate 15 rowA) (by decide) (by decide)⟩
